import Mathlib

/-!
Shallow embedding of the contributor-performance aggregation engine of the
`middleware` dashboard, as implemented in
`src/web-server/src/hooks/useContributorData.ts` (the full variant of
`useContributorData`, lines 350-808 of the concatenated file: `isBot`,
the PR/deployment/incident folding, the per-contributor DORA scoring with
the clamp bands, and the contribution-percentage rebalancing).

Modelling conventions:
* JavaScript numbers are modelled as exact rationals (`ℚ`); the count-like
  quantities (PR counts, commit counts, additions, ...) are modelled as `ℕ`,
  matching their role as event counters in the source (they are only ever
  initialised to 0 and incremented by non-negative event fields).
* `undefined` for an optional numeric field is `Option.none`; JavaScript
  truthiness of a number (`if (x)`) is `x ≠ 0`, and of an optional number
  it is `some v` with `v ≠ 0`.
* `Math.round x` is `⌊x + 1/2⌋` (ties toward +∞, as in JavaScript),
  `Math.floor` is `⌊·⌋`.
* `Math.random()` is an oracle `ρ : String → ℚ` giving each contributor
  (keyed by username) a draw; theorems that depend on it assume
  `0 ≤ ρ u < 1`, the contract of `Math.random`.
* A JavaScript `Map` is an insertion-ordered association list; `Map.set` on
  an existing key updates in place, on a fresh key appends at the end, and
  iteration (`forEach`, `Array.from(map.values())`) follows that order.
* `Array.prototype.sort` with comparator `(a, b) => key(b) - key(a)` is a
  stable descending sort by `key`; it is modelled by a stable insertion
  sort `stableSortDescBy`.
-/

namespace ContribAgg

/-- JavaScript `Math.round`: `round x = ⌊x + 1/2⌋` (half-up, ties toward +∞). -/
def jsRound (q : ℚ) : ℤ := ⌊q + 1/2⌋

/-- Lower-case a string character by character (`username.toLowerCase()`;
all usernames and patterns involved are ASCII). -/
def strLower (s : String) : String := ⟨s.data.map Char.toLower⟩

/-- Whether `pat` occurs at the start of `s` (helper for substring search). -/
def listStarts : List Char → List Char → Bool
  | [], _ => true
  | _ :: _, [] => false
  | p :: ps, s :: ss => p == s && listStarts ps ss

/-- Whether `pat` occurs as a contiguous segment of `s`. -/
def listContainsSeg (pat : List Char) : List Char → Bool
  | [] => listStarts pat []
  | s :: ss => listStarts pat (s :: ss) || listContainsSeg pat ss

/-- JavaScript `s.includes(pat)`. -/
def strIncludes (s pat : String) : Bool := listContainsSeg pat.data s.data

/-- The fixed bot-username denylist `BOT_PATTERNS` from the source. -/
def BOT_PATTERNS : List String :=
  ["bot", "jenkins", "travis", "circleci", "github-actions", "dependabot",
   "renovate", "snyk", "github-actions[bot]", "dependabot[bot]", "renovate[bot]"]

/-- `isBot(username)`: false on the empty (falsy) username, otherwise true
iff the lower-cased username contains one of the fixed patterns. -/
def isBot (username : String) : Bool :=
  if username = "" then false
  else BOT_PATTERNS.any fun pattern => strIncludes (strLower username) pattern

/-- The eight base bot patterns named by the specification (§4.1); the three
`[bot]`-suffixed entries of `BOT_PATTERNS` each contain `"bot"` and are
therefore redundant for the containment test. -/
def SPEC_BOT_PATTERNS : List String :=
  ["bot", "jenkins", "travis", "circleci", "github-actions", "dependabot",
   "renovate", "snyk"]

/-- `matchesSpecBotPattern u`: the specification-side bot criterion — the
lower-cased username contains one of the eight base patterns. -/
def matchesSpecBotPattern (username : String) : Bool :=
  SPEC_BOT_PATTERNS.any fun pattern => strIncludes (strLower username) pattern

/-- A user reference as it appears on events (`pr.author`, `reviewer`,
`deployment.event_actor`, `incident.assigned_to`): `username` and `name`
with `""` standing for a missing/falsy string field. -/
structure UserRef where
  username : String
  name : String
  avatar_url : Option String
deriving DecidableEq, Repr

/-- A pull-request event, with the fields the aggregation reads. `none` in a
numeric field models an absent (`undefined`) field. -/
structure PullReq where
  author : Option UserRef
  commits : Option ℕ
  additions : Option ℕ
  deletions : Option ℕ
  comments : Option ℕ
  rework_cycles : Option ℕ
  reviewers : List UserRef
  lead_time : Option ℚ
  merge_time : Option ℚ
  rework_time : Option ℚ
deriving DecidableEq, Repr

/-- A deployment event (`event_actor`, `status`). -/
structure Deployment where
  event_actor : Option UserRef
  status : String
deriving DecidableEq, Repr

/-- An incident event (`assigned_to`). -/
structure Incident where
  assigned_to : Option UserRef
deriving DecidableEq, Repr

/-- One entry of a contributor's `reviewersList`. -/
structure RevEntry where
  username : String
  name : String
  count : ℕ
deriving DecidableEq, Repr

/-- The per-contributor scorecard (`ContributorData` in the source).
Fields that the source leaves `undefined` until their single assignment
(`deployFrequency`, `changeFailureRate`, `weightedDoraScore`,
`doraPercentage`) are initialised to `0` here; each of them is written
before it is ever read on every path of the computation, so the initial
value is unobservable. `doraScore` and `timeToRestore` keep their optional
(`undefined`-able) type. -/
structure Contributor where
  name : String
  username : String
  avatarUrl : Option String
  contributions : ℕ
  prs : ℕ
  deploymentCount : ℕ
  successfulDeployments : ℕ
  failedDeployments : ℕ
  incidentCount : ℕ
  leadTime : ℚ
  mergeTime : ℚ
  reworkTime : ℚ
  additions : ℕ
  deletions : ℕ
  isBot : Bool
  commentCount : ℕ
  reviewersList : List RevEntry
  changeCycles : ℕ
  doraScore : Option ℚ
  doraPercentage : ℚ
  deployFrequency : ℚ
  changeFailureRate : ℚ
  timeToRestore : Option ℚ
  weightedDoraScore : ℚ
deriving DecidableEq, Repr

/-- The object literal installed by `contributorsMap.set(username, {...})`
when a PR author is first seen. -/
def initContributor (name username : String) (avatarUrl : Option String) : Contributor where
  name := name
  username := username
  avatarUrl := avatarUrl
  contributions := 0
  prs := 0
  deploymentCount := 0
  successfulDeployments := 0
  failedDeployments := 0
  incidentCount := 0
  leadTime := 0
  mergeTime := 0
  reworkTime := 0
  additions := 0
  deletions := 0
  isBot := false
  commentCount := 0
  reviewersList := []
  changeCycles := 0
  doraScore := some 0
  doraPercentage := 0
  deployFrequency := 0
  changeFailureRate := 0
  timeToRestore := none
  weightedDoraScore := 0

instance : Inhabited Contributor := ⟨initContributor "" "" none⟩

/-- `contributorsMap.has u` over the insertion-ordered list of values. -/
abbrev hasUser (m : List Contributor) (u : String) : Prop := ∃ c ∈ m, c.username = u

/-- The aggregation state while folding PRs: the contributor map and the
per-contributor reviewer-count map (both insertion-ordered). -/
structure AggState where
  contribs : List Contributor
  reviewers : List (String × List (String × ℕ))

/-- Truthiness of an optional number (`if (x)` in JavaScript). -/
def optTruthy : Option ℚ → Prop
  | none => False
  | some v => v ≠ 0

instance : (o : Option ℚ) → Decidable (optTruthy o)
  | none => isFalse (fun h => h)
  | some v => if hv : v = 0 then isFalse (fun h => h hv) else isTrue hv

/-- JavaScript `x > q` for an optional `x` (`undefined > q` is false). -/
def optGt : Option ℚ → ℚ → Prop
  | none, _ => False
  | some v, q => q < v

instance : (o : Option ℚ) → (q : ℚ) → Decidable (optGt o q)
  | none, _ => isFalse (fun h => h)
  | some v, q => inferInstanceAs (Decidable (q < v))

/-- JavaScript `x < q` for an optional `x` (`undefined < q` is false). -/
def optLt : Option ℚ → ℚ → Prop
  | none, _ => False
  | some v, q => v < q

instance : (o : Option ℚ) → (q : ℚ) → Decidable (optLt o q)
  | none, _ => isFalse (fun h => h)
  | some v, q => inferInstanceAs (Decidable (v < q))

/-- The per-PR update of the author's scorecard: counters, sums, and the
three running time means. The PR count is incremented first, so each mean
update divides by the post-increment count; a missing or zero (falsy) time
value leaves that mean untouched. The `if (!contributor.leadTime)
contributor.leadTime = 0` reset in the source is a no-op here: the field is
initialised to `0` and is never `undefined`. -/
def applyPR (pr : PullReq) (c0 : Contributor) : Contributor :=
  let c := { c0 with
    prs := c0.prs + 1
    contributions := c0.contributions + pr.commits.getD 0
    additions := c0.additions + pr.additions.getD 0
    deletions := c0.deletions + pr.deletions.getD 0
    commentCount := c0.commentCount + pr.comments.getD 0
    changeCycles := c0.changeCycles + pr.rework_cycles.getD 0 }
  let c := match pr.lead_time with
    | some v => if v = 0 then c else
        { c with leadTime := (c.leadTime * ((c.prs : ℚ) - 1) + v) / (c.prs : ℚ) }
    | none => c
  let c := match pr.merge_time with
    | some v => if v = 0 then c else
        { c with mergeTime := (c.mergeTime * ((c.prs : ℚ) - 1) + v) / (c.prs : ℚ) }
    | none => c
  match pr.rework_time with
    | some v => if v = 0 then c else
        { c with reworkTime := (c.reworkTime * ((c.prs : ℚ) - 1) + v) / (c.prs : ℚ) }
    | none => c

/-- One `Map.set(reviewerUsername, (get ?? 0) + 1)` on a reviewer-count map:
update in place if the key exists, else append. -/
def bumpRev (revs : List (String × ℕ)) (r : String) : List (String × ℕ) :=
  if ∃ e ∈ revs, e.1 = r then
    revs.map fun e => if e.1 = r then (e.1, e.2 + 1) else e
  else revs ++ [(r, 1)]

/-- Fold a PR's reviewer list into the author's reviewer-count map; entries
with a falsy username or a bot username are skipped. -/
def addReviewers (revs : List (String × ℕ)) (rvs : List UserRef) : List (String × ℕ) :=
  rvs.foldl
    (fun acc rv =>
      if rv.username ≠ "" ∧ isBot rv.username = false then bumpRev acc rv.username else acc)
    revs

/-- Process one PR event (`prs.forEach` body): skip on a missing/falsy or
bot author; otherwise get-or-create the author's scorecard and reviewer map
and apply the per-PR update. -/
def procPR (st : AggState) (pr : PullReq) : AggState :=
  match pr.author with
  | none => st
  | some author =>
    if author.username = "" then st
    else if isBot author.username = true then st
    else
      let username := author.username
      let dispName := if author.name = "" then username else author.name
      let st1 : AggState :=
        if hasUser st.contribs username then st
        else
          { contribs := st.contribs ++ [initContributor dispName username author.avatar_url]
            reviewers := st.reviewers ++ [(username, [])] }
      { contribs := st1.contribs.map fun c => if c.username = username then applyPR pr c else c
        reviewers := st1.reviewers.map fun e =>
          if e.1 = username then (e.1, addReviewers e.2 pr.reviewers) else e }

/-- The per-contributor update of one deployment event: bump
`deploymentCount` and the success/failure counter chosen by `status`. -/
def depUpdate (d : Deployment) (c : Contributor) : Contributor :=
  let c1 := { c with deploymentCount := c.deploymentCount + 1 }
  if d.status = "success" then
    { c1 with successfulDeployments := c1.successfulDeployments + 1 }
  else
    { c1 with failedDeployments := c1.failedDeployments + 1 }

/-- Process one deployment event (`deployments.forEach` body): skipped when
the actor is missing, falsy, a bot, or not already a contributor. -/
def procDep (m : List Contributor) (d : Deployment) : List Contributor :=
  match d.event_actor with
  | none => m
  | some actor =>
    if actor.username = "" then m
    else if isBot actor.username = true then m
    else if ¬ hasUser m actor.username then m
    else m.map fun c => if c.username = actor.username then depUpdate d c else c

/-- The per-contributor update of one incident event. -/
def incUpdate (c : Contributor) : Contributor :=
  { c with incidentCount := c.incidentCount + 1 }

/-- Process one incident event (`incidents.forEach` body): skipped when the
assignee is missing, falsy, a bot, or not already a contributor. -/
def procInc (m : List Contributor) (i : Incident) : List Contributor :=
  match i.assigned_to with
  | none => m
  | some assignee =>
    if assignee.username = "" then m
    else if isBot assignee.username = true then m
    else if ¬ hasUser m assignee.username then m
    else m.map fun c => if c.username = assignee.username then incUpdate c else c

/-- Insert into a list that is already sorted descending by `key`, after
every element of greater-or-equal key: the insertion-sort step of a stable
descending sort. -/
def insOrdered (key : α → ℕ) (a : α) : List α → List α
  | [] => [a]
  | b :: bs => if key a ≤ key b then b :: insOrdered key a bs else a :: b :: bs

/-- Stable descending sort by a numeric key: the behaviour of
`array.sort((a, b) => key(b) - key(a))` (stable per the ECMAScript spec). -/
def stableSortDescBy (key : α → ℕ) (l : List α) : List α :=
  l.foldl (fun acc a => insOrdered key a acc) []

/-- Resolve a reviewer's display name from the contributor map, falling back
to the username (`contributorsMap.get(reviewerUsername)?.name`; only the
`name` field — never mutated by the scoring pass — is read, so resolving
against the pre-pass map is equivalent to the source's in-place loop). -/
def nameOf (allC : List Contributor) (u : String) : String :=
  match allC.find? fun c => decide (c.username = u) with
  | some rc => rc.name
  | none => u

/-- Build `reviewersList`: name-resolve each reviewer-count entry, sort by
count descending (stable, so ties keep first-seen order), take the top 5. -/
def buildReviewersList (allC : List Contributor) (revs : List (String × ℕ)) : List RevEntry :=
  (stableSortDescBy (fun e => e.count)
    (revs.map fun e => { username := e.1, name := nameOf allC e.1, count := e.2 })).take 5

/-- The reviewer-count map of one contributor (`reviewersMap.get(username)`,
`[]` when absent — which cannot happen for a map key). -/
def revsFor (rm : List (String × List (String × ℕ))) (u : String) : List (String × ℕ) :=
  match rm.find? fun e => decide (e.1 = u) with
  | some e => e.2
  | none => []

/-- Deployment-frequency band points (deployments per week over a ≈4-week
window). -/
def deployFreqPoints (deploymentCount : ℕ) : ℚ :=
  let deploymentsPerWeek : ℚ := (deploymentCount : ℚ) / 4
  if deploymentsPerWeek ≥ 7 then 100
  else if deploymentsPerWeek ≥ 1 then 75
  else if deploymentsPerWeek ≥ 0.25 then 50
  else 25

/-- Lead-time band points (hours). -/
def leadTimePoints (leadTime : ℚ) : ℚ :=
  let leadTimeHours := leadTime / (1000 * 60 * 60)
  if leadTimeHours < 24 then 100
  else if leadTimeHours < 168 then 75
  else if leadTimeHours < 720 then 50
  else 25

/-- Change-failure-rate band points. -/
def cfrPoints (cfr : ℚ) : ℚ :=
  if cfr < 0.15 then 100
  else if cfr < 0.30 then 75
  else if cfr < 0.45 then 50
  else 25

/-- Time-to-restore band points (hours). -/
def mttrPoints (ttr : ℚ) : ℚ :=
  let mttrHours := ttr / (1000 * 60 * 60)
  if mttrHours < 1 then 100
  else if mttrHours < 24 then 75
  else if mttrHours < 168 then 50
  else 25

/-- The number of DORA sub-metrics that have data for `c`, exactly per the
four source guards (`deploymentCount > 0` twice, truthy `leadTime`, truthy
`timeToRestore` where `timeToRestore = incidentCount > 0 ? leadTime :
undefined`). -/
def metricsCounted (c : Contributor) : ℕ :=
  (if 0 < c.deploymentCount then 1 else 0) + (if c.leadTime ≠ 0 then 1 else 0) +
    (if 0 < c.deploymentCount then 1 else 0) +
    (if optTruthy (if 0 < c.incidentCount then some c.leadTime else none) then 1 else 0)

/-- The per-contributor scoring body (`contributorsMap.forEach`), up to but
not including the random clamp: `reviewersList`, the three derived DORA
sub-metrics, and the pre-clamp `doraScore` (the banded points averaged with
the baseline 40, or `0` when no metric had data). -/
def preScore (allC : List Contributor) (revs : List (String × ℕ)) (c0 : Contributor) :
    Contributor :=
  let c := { c0 with reviewersList := buildReviewersList allC revs }
  let c := { c with deployFrequency := (c.deploymentCount : ℚ) / max 1 (c.prs : ℚ) }
  let c := { c with changeFailureRate := (c.failedDeployments : ℚ) / max 1 (c.deploymentCount : ℚ) }
  let c := { c with timeToRestore := if 0 < c.incidentCount then some c.leadTime else none }
  let acc : ℚ × ℕ := (0, 0)
  let acc := if 0 < c.deploymentCount then (acc.1 + deployFreqPoints c.deploymentCount, acc.2 + 1)
    else acc
  let acc := if c.leadTime ≠ 0 then (acc.1 + leadTimePoints c.leadTime, acc.2 + 1) else acc
  let acc := if 0 < c.deploymentCount then (acc.1 + cfrPoints c.changeFailureRate, acc.2 + 1)
    else acc
  let acc := if optTruthy c.timeToRestore then (acc.1 + mttrPoints (c.timeToRestore.getD 0), acc.2 + 1)
    else acc
  let acc := if 0 < acc.2 then (acc.1 + 40, acc.2 + 1) else acc
  { c with doraScore := some (if 0 < acc.2 then ((jsRound (acc.1 / (acc.2 : ℚ)) : ℤ) : ℚ) else 0) }

/-- The clamp/banding step: a pre-clamp score above 85 is replaced by
`85 + ⌊rand·10⌋`, one below 35 by `35 + ⌊rand·10⌋`, anything else is kept
(`rand` models the `Math.random()` draw for this contributor). -/
def clampScore (rand : ℚ) (c : Contributor) : Contributor :=
  if optGt c.doraScore 85 then { c with doraScore := some (85 + ((⌊rand * 10⌋ : ℤ) : ℚ)) }
  else if optLt c.doraScore 35 then { c with doraScore := some (35 + ((⌊rand * 10⌋ : ℤ) : ℚ)) }
  else c

/-- Left fold of `f`-values, as the source's `array.reduce((s, c) => s + f c, 0)`. -/
def sumBy (f : Contributor → ℚ) (l : List Contributor) : ℚ :=
  l.foldl (fun s c => s + f c) 0

/-- The weighted contribution score (`weightedDoraScore`): the fixed-weight
blend of PR count (0.35), commit count (0.20), capped code churn (0.15),
deployment success rate (0.20) and the lead-time speed score (0.10). -/
def setWeighted (c : Contributor) : Contributor :=
  let s1 : ℚ := (c.prs : ℚ) * 0.35
  let s2 : ℚ := s1 + (c.contributions : ℚ) * 0.20
  let codeChanges : ℚ := (c.additions : ℚ) + (c.deletions : ℚ)
  let s3 : ℚ := s2 + min 5000 codeChanges / 100 * 0.15
  let s4 : ℚ :=
    if 0 < c.deploymentCount then
      s3 + ((c.successfulDeployments : ℚ) / (c.deploymentCount : ℚ)) * 100 * 0.20
    else s3
  let s5 : ℚ :=
    if c.leadTime ≠ 0 then
      (let leadTimeHours := c.leadTime / (1000 * 60 * 60)
       let normalizedLeadTime := min 168 leadTimeHours
       let speedScore := max 0 (10 - normalizedLeadTime / 24)
       s4 + speedScore * 0.10)
    else s4
  { c with weightedDoraScore := s5 }

/-- Assign `doraPercentage := round(weightedDoraScore / total * 100)`. -/
def pctOf (total : ℚ) (c : Contributor) : Contributor :=
  { c with doraPercentage := ((jsRound (c.weightedDoraScore / total * 100) : ℤ) : ℚ) }

/-- Assign the fallback percentage `round(prs / totalPrs * 100)`. -/
def fallbackPct (totalPrs : ℚ) (c : Contributor) : Contributor :=
  { c with doraPercentage := ((jsRound ((c.prs : ℚ) / totalPrs * 100) : ℤ) : ℚ) }

/-- The degenerate-tie test: every contributor's `doraPercentage` equals the
first one's (vacuously true on the empty list, as `Array.every` is). -/
abbrev allSamePct (arr : List Contributor) : Prop :=
  ∀ x ∈ arr, x.doraPercentage = (arr.headD default).doraPercentage

/-- The maximum `doraPercentage` of a list (0 on the empty list, which the
drift correction never reaches). -/
def maxPct : List Contributor → ℚ
  | [] => 0
  | c :: cs => cs.foldl (fun m x => max m x.doraPercentage) c.doraPercentage

/-- Add `d` to the `doraPercentage` of the first element whose percentage
is `m`, leaving everything else unchanged. -/
def addToFirstWith (m d : ℚ) : List Contributor → List Contributor
  | [] => []
  | c :: cs =>
    if c.doraPercentage = m then { c with doraPercentage := c.doraPercentage + d } :: cs
    else c :: addToFirstWith m d cs

/-- The rounding-drift correction target: the source stable-sorts a copy of
the array descending by `doraPercentage` and mutates `sorted[0]`, which is
(by stability and aliasing) exactly the first element of the original array
attaining the maximum percentage. -/
def addToFirstMax (d : ℚ) (l : List Contributor) : List Contributor :=
  addToFirstWith (maxPct l) d l

/-- The weighted pass followed by the percentage assignment: every
contributor gets `weightedDoraScore`, then (against the total)
`doraPercentage` — the state of the array right before the degenerate-tie
check, assuming the positive-total branch was taken. -/
def pctStage (arr0 : List Contributor) : List Contributor :=
  let arr := arr0.map setWeighted
  arr.map (pctOf (sumBy (fun c => c.weightedDoraScore) arr))

/-- The degenerate-tie fallback (`if (allSamePercentage &&
contributorsArray.length > 1)`): when every percentage is identical and
there are at least two contributors, re-derive the percentages from the PR
shares — provided the total PR count is positive. -/
def fallbackStage (arr1 : List Contributor) : List Contributor :=
  if allSamePct arr1 ∧ 1 < arr1.length then
    (if 0 < sumBy (fun c => (c.prs : ℚ)) arr1 then
       arr1.map (fallbackPct (sumBy (fun c => (c.prs : ℚ)) arr1))
     else arr1)
  else arr1

/-- The final sanity check: when the percentages do not sum to exactly 100,
add the difference to the (first) contributor with the highest percentage. -/
def driftFix (l : List Contributor) : List Contributor :=
  if sumBy (fun c => c.doraPercentage) l ≠ 100 ∧ 0 < l.length then
    addToFirstMax (100 - sumBy (fun c => c.doraPercentage) l) l
  else l

/-- The contribution-percentage phase (the `if (contributorsArray.length >
0)` block): weighted scores, total, percentages when the total is positive,
the all-equal fallback to PR share, and the rounding-drift correction. -/
def applyPercentages (arr0 : List Contributor) : List Contributor :=
  if arr0.length = 0 then arr0 else
  if 0 < sumBy (fun c => c.weightedDoraScore) (arr0.map setWeighted) then
    driftFix (fallbackStage (pctStage arr0))
  else arr0.map setWeighted

/-- The PR-folding phase: `prs.forEach(...)` starting from empty maps. -/
def prPhase (prList : List PullReq) : AggState :=
  prList.foldl procPR ⟨[], []⟩

/-- The deployment and incident folding phases, run on the contributor map
produced by the PR phase. -/
def eventPhase (prList : List PullReq) (deps : List Deployment) (incs : List Incident) :
    List Contributor :=
  incs.foldl procInc (deps.foldl procDep (prPhase prList).contribs)

/-- The scoring pass (`contributorsMap.forEach` after all events are
folded): reviewer lists, DORA sub-metrics, pre-clamp score, random clamp.
The source mutates the map entries one by one; since the pass reads other
entries only through their immutable `name` field, mapping over the
post-event map is equivalent. -/
def scorePhase (ρ : String → ℚ) (prList : List PullReq) (deps : List Deployment)
    (incs : List Incident) : List Contributor :=
  (eventPhase prList deps incs).map fun c =>
    clampScore (ρ c.username)
      (preScore (eventPhase prList deps incs) (revsFor (prPhase prList).reviewers c.username) c)

/-- The whole aggregation (`contributors` in the source): `[]` when there
are no PRs; otherwise fold PRs, deployments and incidents, run the scoring
pass (with the random clamp fed by the oracle `ρ`), sort descending by
commit count (stable), and rebalance the contribution percentages. -/
def aggregate (ρ : String → ℚ) (prList : List PullReq) (deps : List Deployment)
    (incs : List Incident) : List Contributor :=
  if prList.length = 0 then [] else
  applyPercentages
    (stableSortDescBy (fun c => c.contributions) (scorePhase ρ prList deps incs))

/-- A rational is integral when it is the cast of an integer (the output
shape of `Math.round`). -/
def IsInt (q : ℚ) : Prop := ∃ k : ℤ, q = (k : ℚ)

/-- The ordering asserted by the specification's sort-order sentence: commit
count descending, ties broken by PR count descending (`specSortOrder l`
holds iff `l` is sorted that way). -/
def specSortOrder (l : List Contributor) : Prop :=
  l.Pairwise fun a b =>
    b.contributions < a.contributions ∨
      (b.contributions = a.contributions ∧ b.prs ≤ a.prs)

/-- Add `d` to the first list entry equal to `m` (value-level picture of the
drift correction). -/
def specBumpFirst (m d : ℚ) : List ℚ → List ℚ
  | [] => []
  | p :: ps => if p = m then (p + d) :: ps else p :: specBumpFirst m d ps

/-- The maximum of a rational list (0 on the empty list). -/
def listMax : List ℚ → ℚ
  | [] => 0
  | p :: ps => ps.foldl max p

/-- The specification's rounding-drift correction on a list of percentage
values: when they do not sum to exactly 100, add the signed difference to
the (first) highest one. -/
def specDrift (l : List ℚ) : List ℚ :=
  if l.sum ≠ 100 then specBumpFirst (listMax l) (100 - l.sum) l else l

/-- The specification's degenerate-tie fallback percentages:
`round(100 * prCount_i / Σ prCount)` for each contributor. -/
def specFallbackPcts (arr : List Contributor) : List ℚ :=
  arr.map fun c =>
    ((jsRound (100 * (c.prs : ℚ) / sumBy (fun x => (x.prs : ℚ)) arr) : ℤ) : ℚ)

/-! Concrete inputs used by witnesses and counterexamples. -/

/-- A human contributor reference. -/
def uAlice : UserRef := ⟨"alice", "Alice", none⟩

/-- A second human contributor reference. -/
def uBob : UserRef := ⟨"bob", "Bob", none⟩

/-- A PR by alice with 3 commits and no optional data. -/
def prPlain : PullReq :=
  ⟨some uAlice, some 3, none, none, none, none, [], none, none, none⟩

/-- A PR by alice carrying only a lead time `t`. -/
def prLead (t : ℚ) : PullReq :=
  ⟨some uAlice, none, none, none, none, none, [], some t, none, none⟩

/-- A PR by `u` carrying only a commit count `k`. -/
def prCommits (u : UserRef) (k : ℕ) : PullReq :=
  ⟨some u, some k, none, none, none, none, [], none, none, none⟩

/-- A PR by alice with 1 commit that lists alice herself as its reviewer. -/
def prSelfReview : PullReq :=
  ⟨some uAlice, some 1, none, none, none, none, [uAlice], none, none, none⟩

/-- A degenerate random oracle (every draw is 0, within the `[0,1)` contract). -/
def rho0 : String → ℚ := fun _ => 0

/-- A fresh scorecard with one PR folded in (used by concrete witnesses). -/
def cOnePR (name username : String) : Contributor :=
  { initContributor name username none with prs := 1 }

/-- Alice's scorecard after folding `prPlain`. -/
def cPlain1 : Contributor :=
  { initContributor "Alice" "alice" none with prs := 1, contributions := 3 }

/-- `cPlain1` after the scoring pass (no metric had data, so the raw score 0
is clamped into the floor band; the oracle draw is 0). -/
def cPlain2 : Contributor := { cPlain1 with doraScore := some 35 }

/-- `cPlain2` after the percentage phase (single contributor). -/
def cPlain3 : Contributor :=
  { cPlain2 with weightedDoraScore := 19/20, doraPercentage := 100 }

/-- Alice's scorecard after folding `prSelfReview`. -/
def cSelf1 : Contributor :=
  { initContributor "Alice" "alice" none with prs := 1, contributions := 1 }

/-- `cSelf1` after the scoring pass: the self-review entry is recorded. -/
def cSelf2 : Contributor :=
  { cSelf1 with reviewersList := [⟨"alice", "Alice", 1⟩], doraScore := some 35 }

/-- `cSelf2` after the percentage phase. -/
def cSelf3 : Contributor :=
  { cSelf2 with weightedDoraScore := 11/20, doraPercentage := 100 }

/-- Alice's scorecard in the tie example: 1 PR, 2 commits. -/
def cTieA2 : Contributor :=
  { initContributor "Alice" "alice" none with
      prs := 1
      contributions := 2
      doraScore := some 35 }

/-- Bob's scorecard in the tie example: 2 PRs, 2 commits. -/
def cTieB2 : Contributor :=
  { initContributor "Bob" "bob" none with
      prs := 2
      contributions := 2
      doraScore := some 35 }

/-- `cTieA2` after the percentage phase. -/
def cTieA3 : Contributor :=
  { cTieA2 with weightedDoraScore := 3/4, doraPercentage := 41 }

/-- `cTieB2` after the percentage phase. -/
def cTieB3 : Contributor :=
  { cTieB2 with weightedDoraScore := 11/10, doraPercentage := 59 }

/-! ### Generic helper lemmas -/

theorem applyPR_core (pr : PullReq) (c : Contributor) :
    (applyPR pr c).username = c.username ∧ (applyPR pr c).name = c.name ∧
    (applyPR pr c).prs = c.prs + 1 ∧
    (applyPR pr c).contributions = c.contributions + pr.commits.getD 0 ∧
    (applyPR pr c).reviewersList = c.reviewersList ∧
    (applyPR pr c).doraScore = c.doraScore := by
  rcases pr with ⟨a, co, ad, de, cm, rw, rv, lt, mt, rt⟩
  simp only [applyPR]
  cases lt <;> cases mt <;> cases rt <;>
    simp [apply_ite (f := fun c : Contributor => c.username),
      apply_ite (f := fun c : Contributor => c.name),
      apply_ite (f := fun c : Contributor => c.prs),
      apply_ite (f := fun c : Contributor => c.contributions),
      apply_ite (f := fun c : Contributor => c.reviewersList),
      apply_ite (f := fun c : Contributor => c.doraScore)]

theorem foldl_add_shift (f : Contributor → ℚ) (l : List Contributor) (a : ℚ) :
    l.foldl (fun s c => s + f c) a = a + l.foldl (fun s c => s + f c) 0 := by
  induction l generalizing a with
  | nil => simp
  | cons c cs ih =>
    simp only [List.foldl_cons]
    rw [ih (a + f c), ih (0 + f c)]
    ring

theorem sumBy_nil (f : Contributor → ℚ) : sumBy f [] = 0 := rfl

theorem sumBy_cons (f : Contributor → ℚ) (c : Contributor) (cs : List Contributor) :
    sumBy f (c :: cs) = f c + sumBy f cs := by
  simp only [sumBy, List.foldl_cons]
  rw [foldl_add_shift]
  ring

theorem sumBy_nonneg (f : Contributor → ℚ) (l : List Contributor)
    (h : ∀ c ∈ l, 0 ≤ f c) : 0 ≤ sumBy f l := by
  induction l with
  | nil => simp [sumBy_nil]
  | cons c cs ih =>
    rw [sumBy_cons]
    have h1 := h c (by simp)
    have h2 := ih fun x hx => h x (by simp [hx])
    linarith

theorem sumBy_pos_of_lb (f : Contributor → ℚ) (l : List Contributor) (b : ℚ)
    (hl : l ≠ []) (hb : 0 < b) (h : ∀ c ∈ l, b ≤ f c) : 0 < sumBy f l := by
  cases l with
  | nil => exact absurd rfl hl
  | cons c cs =>
    rw [sumBy_cons]
    have h1 := h c (by simp)
    have h2 : 0 ≤ sumBy f cs :=
      sumBy_nonneg f cs fun x hx => le_trans hb.le (h x (by simp [hx]))
    linarith

theorem sumBy_eq_sum_map (f : Contributor → ℚ) (l : List Contributor) :
    sumBy f l = (l.map f).sum := by
  induction l with
  | nil => simp [sumBy_nil]
  | cons c cs ih => rw [sumBy_cons, List.map_cons, List.sum_cons, ih]

theorem sumBy_map (f : Contributor → ℚ) (g : Contributor → Contributor)
    (l : List Contributor) : sumBy f (l.map g) = sumBy (fun c => f (g c)) l := by
  induction l with
  | nil => simp [sumBy_nil]
  | cons c cs ih => rw [List.map_cons, sumBy_cons, sumBy_cons, ih]

theorem sumBy_congr (f g : Contributor → ℚ) (l : List Contributor)
    (h : ∀ c ∈ l, f c = g c) : sumBy f l = sumBy g l := by
  induction l with
  | nil => simp [sumBy_nil]
  | cons c cs ih =>
    rw [sumBy_cons, sumBy_cons, h c (by simp), ih fun x hx => h x (by simp [hx])]

theorem isInt_intCast (k : ℤ) : IsInt ((k : ℤ) : ℚ) := ⟨k, rfl⟩

theorem IsInt.add {a b : ℚ} (ha : IsInt a) (hb : IsInt b) : IsInt (a + b) := by
  obtain ⟨j, rfl⟩ := ha
  obtain ⟨k, rfl⟩ := hb
  exact ⟨j + k, by push_cast; ring⟩

theorem IsInt.sub {a b : ℚ} (ha : IsInt a) (hb : IsInt b) : IsInt (a - b) := by
  obtain ⟨j, rfl⟩ := ha
  obtain ⟨k, rfl⟩ := hb
  exact ⟨j - k, by push_cast; ring⟩

theorem isInt_hundred : IsInt (100 : ℚ) := ⟨100, by norm_num⟩

theorem isInt_sumBy (f : Contributor → ℚ) (l : List Contributor)
    (h : ∀ c ∈ l, IsInt (f c)) : IsInt (sumBy f l) := by
  induction l with
  | nil => exact ⟨0, by simp [sumBy_nil]⟩
  | cons c cs ih =>
    rw [sumBy_cons]
    exact (h c (by simp)).add (ih fun x hx => h x (by simp [hx]))

theorem mem_insOrdered {α : Type} (key : α → ℕ) (x a : α) (l : List α) :
    a ∈ insOrdered key x l ↔ a = x ∨ a ∈ l := by
  induction l with
  | nil => simp [insOrdered]
  | cons b bs ih =>
    by_cases hkb : key x ≤ key b
    · simp only [insOrdered, if_pos hkb, List.mem_cons, ih]
      try tauto
    · simp only [insOrdered, if_neg hkb, List.mem_cons]
      try tauto

theorem mem_foldl_ins {α : Type} (key : α → ℕ) (l : List α) :
    ∀ (acc : List α) (a : α),
      a ∈ l.foldl (fun acc x => insOrdered key x acc) acc ↔ a ∈ acc ∨ a ∈ l := by
  induction l with
  | nil => simp
  | cons b bs ih =>
    intro acc a
    simp only [List.foldl_cons]
    rw [ih]
    simp [mem_insOrdered]
    tauto

theorem mem_stableSortDescBy {α : Type} (key : α → ℕ) (l : List α) (a : α) :
    a ∈ stableSortDescBy key l ↔ a ∈ l := by
  rw [stableSortDescBy, mem_foldl_ins]
  simp

theorem length_insOrdered {α : Type} (key : α → ℕ) (x : α) (l : List α) :
    (insOrdered key x l).length = l.length + 1 := by
  induction l with
  | nil => simp [insOrdered]
  | cons b bs ih =>
    simp only [insOrdered]
    split <;> simp [ih]

theorem length_stableSortDescBy {α : Type} (key : α → ℕ) (l : List α) :
    (stableSortDescBy key l).length = l.length := by
  have : ∀ (acc : List α),
      (l.foldl (fun acc x => insOrdered key x acc) acc).length = acc.length + l.length := by
    induction l with
    | nil => simp
    | cons b bs ih =>
      intro acc
      simp only [List.foldl_cons]
      rw [ih, length_insOrdered]
      simp only [List.length_cons]
      omega
  rw [stableSortDescBy, this]
  simp

theorem pairwise_insOrdered {α : Type} (key : α → ℕ) (x : α) (l : List α)
    (h : l.Pairwise fun a b => key b ≤ key a) :
    (insOrdered key x l).Pairwise fun a b => key b ≤ key a := by
  induction l with
  | nil => simp [insOrdered]
  | cons b bs ih =>
    rw [List.pairwise_cons] at h
    simp only [insOrdered]
    split
    · rw [List.pairwise_cons]
      refine ⟨?_, ih h.2⟩
      intro y hy
      rcases (mem_insOrdered key x y bs).1 hy with rfl | hy'
      · assumption
      · exact h.1 y hy'
    · rw [List.pairwise_cons]
      refine ⟨?_, List.Pairwise.cons h.1 h.2⟩
      intro y hy
      rcases List.mem_cons.1 hy with rfl | hy'
      · omega
      · exact le_trans (h.1 y hy') (by omega)

theorem pairwise_stableSortDescBy {α : Type} (key : α → ℕ) (l : List α) :
    (stableSortDescBy key l).Pairwise fun a b => key b ≤ key a := by
  have : ∀ (acc : List α), (acc.Pairwise fun a b => key b ≤ key a) →
      (l.foldl (fun acc x => insOrdered key x acc) acc).Pairwise fun a b => key b ≤ key a := by
    induction l with
    | nil => intro acc h; simpa using h
    | cons b bs ih =>
      intro acc h
      simp only [List.foldl_cons]
      exact ih _ (pairwise_insOrdered key b acc h)
  exact this [] (by simp)

theorem sum_addToFirstWith (m d : ℚ) (l : List Contributor)
    (h : ∃ c ∈ l, c.doraPercentage = m) :
    sumBy (fun c => c.doraPercentage) (addToFirstWith m d l)
      = sumBy (fun c => c.doraPercentage) l + d := by
  induction l with
  | nil => simp at h
  | cons c cs ih =>
    simp only [addToFirstWith]
    split
    · rw [sumBy_cons, sumBy_cons]
      ring
    · rw [sumBy_cons, sumBy_cons, ih]
      · ring
      · rcases h with ⟨x, hx, hxm⟩
        rcases List.mem_cons.1 hx with rfl | hx'
        · exact absurd hxm (by assumption)
        · exact ⟨x, hx', hxm⟩

theorem mem_addToFirstWith (m d : ℚ) (l : List Contributor) (c : Contributor)
    (h : c ∈ addToFirstWith m d l) :
    c ∈ l ∨ ∃ c₀ ∈ l, c = { c₀ with doraPercentage := c₀.doraPercentage + d } := by
  induction l with
  | nil => simp [addToFirstWith] at h
  | cons b bs ih =>
    simp only [addToFirstWith] at h
    split at h
    · rcases List.mem_cons.1 h with rfl | h'
      · exact Or.inr ⟨b, by simp, rfl⟩
      · exact Or.inl (by simp [h'])
    · rcases List.mem_cons.1 h with rfl | h'
      · exact Or.inl (by simp)
      · rcases ih h' with h'' | ⟨c₀, hc₀, rfl⟩
        · exact Or.inl (by simp [h''])
        · exact Or.inr ⟨c₀, by simp [hc₀], rfl⟩

theorem length_addToFirstWith (m d : ℚ) (l : List Contributor) :
    (addToFirstWith m d l).length = l.length := by
  induction l with
  | nil => rfl
  | cons b bs ih =>
    simp only [addToFirstWith]
    split <;> simp [ih]

theorem map_addToFirstWith {β : Type} (m d : ℚ) (l : List Contributor)
    (f : Contributor → β) (hf : ∀ c x, f { c with doraPercentage := x } = f c) :
    (addToFirstWith m d l).map f = l.map f := by
  induction l with
  | nil => rfl
  | cons b bs ih =>
    simp only [addToFirstWith]
    split <;> simp [ih, hf]

theorem foldl_max_attained (cs : List Contributor) :
    ∀ a : ℚ, cs.foldl (fun m x => max m x.doraPercentage) a = a ∨
      ∃ x ∈ cs, cs.foldl (fun m x => max m x.doraPercentage) a = x.doraPercentage := by
  induction cs with
  | nil => intro a; exact Or.inl rfl
  | cons x xs ih =>
    intro a
    simp only [List.foldl_cons]
    rcases ih (max a x.doraPercentage) with h | ⟨y, hy, hval⟩
    · rcases max_choice a x.doraPercentage with hm | hm
      · exact Or.inl (by rw [h, hm])
      · exact Or.inr ⟨x, by simp, by rw [h, hm]⟩
    · exact Or.inr ⟨y, by simp [hy], hval⟩

theorem maxPct_attained (l : List Contributor) (hl : l ≠ []) :
    ∃ c ∈ l, c.doraPercentage = maxPct l := by
  cases l with
  | nil => exact absurd rfl hl
  | cons c cs =>
    rcases foldl_max_attained cs c.doraPercentage with h | ⟨x, hx, hval⟩
    · exact ⟨c, by simp, by simp [maxPct, h]⟩
    · exact ⟨x, by simp [hx], by simp [maxPct, hval]⟩

theorem forall_of_map_eq {β : Type} {f : Contributor → β} {P : β → Prop}
    {l₁ l₂ : List Contributor} (h : l₂.map f = l₁.map f)
    (hP : ∀ c ∈ l₁, P (f c)) : ∀ c ∈ l₂, P (f c) := by
  intro c hc
  have : f c ∈ l₂.map f := List.mem_map.2 ⟨c, hc, rfl⟩
  rw [h] at this
  rcases List.mem_map.1 this with ⟨c₀, hc₀, heq⟩
  rw [← heq]
  exact hP c₀ hc₀

theorem map_congr_mem {α β : Type} (l : List α) (f g : α → β) (h : ∀ a ∈ l, f a = g a) :
    l.map f = l.map g := by
  induction l with
  | nil => rfl
  | cons a as ih =>
    simp only [List.map_cons]
    rw [h a (by simp), ih fun x hx => h x (by simp [hx])]

theorem preScore_proj (allC : List Contributor) (revs : List (String × ℕ)) (c : Contributor) :
    (preScore allC revs c).username = c.username ∧ (preScore allC revs c).prs = c.prs ∧
    (preScore allC revs c).contributions = c.contributions ∧
    (preScore allC revs c).reviewersList = buildReviewersList allC revs := by
  simp [preScore]

theorem clampScore_proj (rand : ℚ) (c : Contributor) :
    (clampScore rand c).username = c.username ∧ (clampScore rand c).prs = c.prs ∧
    (clampScore rand c).contributions = c.contributions ∧
    (clampScore rand c).reviewersList = c.reviewersList := by
  simp [clampScore, apply_ite (f := fun c : Contributor => c.username),
    apply_ite (f := fun c : Contributor => c.prs),
    apply_ite (f := fun c : Contributor => c.contributions),
    apply_ite (f := fun c : Contributor => c.reviewersList)]

theorem setWeighted_proj (c : Contributor) :
    (setWeighted c).username = c.username ∧ (setWeighted c).prs = c.prs ∧
    (setWeighted c).contributions = c.contributions ∧
    (setWeighted c).reviewersList = c.reviewersList ∧
    (setWeighted c).doraScore = c.doraScore ∧
    (setWeighted c).doraPercentage = c.doraPercentage := by
  simp [setWeighted]

theorem depUpdate_proj (d : Deployment) (c : Contributor) :
    (depUpdate d c).username = c.username ∧ (depUpdate d c).prs = c.prs ∧
    (depUpdate d c).contributions = c.contributions ∧
    (depUpdate d c).reviewersList = c.reviewersList := by
  simp [depUpdate, apply_ite (f := fun c : Contributor => c.username),
    apply_ite (f := fun c : Contributor => c.prs),
    apply_ite (f := fun c : Contributor => c.contributions),
    apply_ite (f := fun c : Contributor => c.reviewersList)]

theorem incUpdate_proj (c : Contributor) :
    (incUpdate c).username = c.username ∧ (incUpdate c).prs = c.prs ∧
    (incUpdate c).contributions = c.contributions ∧
    (incUpdate c).reviewersList = c.reviewersList := by
  simp [incUpdate]

theorem procPR_forall (P : Contributor → Prop) (pr : PullReq) (st : AggState)
    (hApply : ∀ c, P c → P (applyPR pr c))
    (hNew : ∀ a : UserRef, pr.author = some a → a.username ≠ "" → isBot a.username = false →
      P (applyPR pr
          (initContributor (if a.name = "" then a.username else a.name) a.username a.avatar_url)))
    (h : ∀ c ∈ st.contribs, P c) :
    ∀ c ∈ (procPR st pr).contribs, P c := by
  intro c hc
  unfold procPR at hc
  split at hc
  · exact h c hc
  · next a hpa =>
    split at hc
    · exact h c hc
    · split at hc
      · exact h c hc
      · next hu hb =>
        have hb' : isBot a.username = false := by
          cases hib : isBot a.username
          · rfl
          · exact absurd hib hb
        by_cases hhas : hasUser st.contribs a.username
        · simp only [if_pos hhas] at hc
          rcases List.mem_map.1 hc with ⟨x, hx, rfl⟩
          split
          · exact hApply x (h x hx)
          · exact h x hx
        · simp only [if_neg hhas] at hc
          rcases List.mem_map.1 hc with ⟨x, hx, rfl⟩
          rcases List.mem_append.1 hx with hx' | hx'
          · split
            · exact hApply x (h x hx')
            · exact h x hx'
          · have hx'' : x = initContributor (if a.name = "" then a.username else a.name)
                a.username a.avatar_url := by simpa using hx'
            subst hx''
            rw [if_pos (by simp [initContributor])]
            exact hNew a hpa hu hb'

theorem bumpRev_forall (Q : String → Prop) (revs : List (String × ℕ)) (r : String)
    (hr : Q r) (h : ∀ p ∈ revs, Q p.1) : ∀ p ∈ bumpRev revs r, Q p.1 := by
  intro p hp
  unfold bumpRev at hp
  split at hp
  · rcases List.mem_map.1 hp with ⟨e, he, rfl⟩
    split
    · exact h e he
    · exact h e he
  · rcases List.mem_append.1 hp with hp' | hp'
    · exact h p hp'
    · have : p = (r, 1) := by simpa using hp'
      rw [this]
      exact hr

theorem addReviewers_forall (Q : String → Prop) (rvs : List UserRef)
    (hQ : ∀ rv ∈ rvs, rv.username ≠ "" → isBot rv.username = false → Q rv.username) :
    ∀ (revs : List (String × ℕ)), (∀ p ∈ revs, Q p.1) →
      ∀ p ∈ addReviewers revs rvs, Q p.1 := by
  induction rvs with
  | nil => intro revs h p hp; exact h p hp
  | cons rv rvs ih =>
    intro revs h p hp
    simp only [addReviewers, List.foldl_cons] at hp
    refine ih (fun x hx => hQ x (by simp [hx])) _ ?_ p hp
    split
    · next hg =>
      exact bumpRev_forall Q revs rv.username (hQ rv (by simp) hg.1 hg.2) h
    · exact h

theorem procPR_rev_forall (Q : String → Prop) (pr : PullReq) (st : AggState)
    (hQ : ∀ rv ∈ pr.reviewers, rv.username ≠ "" → isBot rv.username = false → Q rv.username)
    (h : ∀ e ∈ st.reviewers, ∀ p ∈ e.2, Q p.1) :
    ∀ e ∈ (procPR st pr).reviewers, ∀ p ∈ e.2, Q p.1 := by
  intro e he
  unfold procPR at he
  split at he
  · exact h e he
  · next a hpa =>
    split at he
    · exact h e he
    · split at he
      · exact h e he
      · next hu hb =>
        have hbase : ∀ e₀, (e₀ ∈ st.reviewers ∨ e₀ = (a.username, ([] : List (String × ℕ)))) →
            ∀ p ∈ e₀.2, Q p.1 := by
          rintro e₀ (he₀ | rfl)
          · exact h e₀ he₀
          · intro p hp
            simp at hp
        by_cases hhas : hasUser st.contribs a.username
        · simp only [if_pos hhas] at he
          rcases List.mem_map.1 he with ⟨x, hx, rfl⟩
          split
          · exact addReviewers_forall Q pr.reviewers hQ x.2 (h x hx)
          · exact h x hx
        · simp only [if_neg hhas] at he
          rcases List.mem_map.1 he with ⟨x, hx, rfl⟩
          have hx2 : x ∈ st.reviewers ∨ x = (a.username, ([] : List (String × ℕ))) := by
            rcases List.mem_append.1 hx with hx' | hx'
            · exact Or.inl hx'
            · exact Or.inr (by simpa using hx')
          split
          · exact addReviewers_forall Q pr.reviewers hQ x.2 (hbase x hx2)
          · exact hbase x hx2

theorem map_procDep {β : Type} (f : Contributor → β) (m : List Contributor) (d : Deployment)
    (hf : ∀ c, f (depUpdate d c) = f c) : (procDep m d).map f = m.map f := by
  unfold procDep
  split
  · rfl
  · split
    · rfl
    · split
      · rfl
      · split
        · rfl
        · rw [List.map_map]
          refine map_congr_mem m _ _ fun c hc => ?_
          simp only [Function.comp_apply]
          split
          · exact hf c
          · rfl

theorem map_procInc {β : Type} (f : Contributor → β) (m : List Contributor) (i : Incident)
    (hf : ∀ c, f (incUpdate c) = f c) : (procInc m i).map f = m.map f := by
  unfold procInc
  split
  · rfl
  · split
    · rfl
    · split
      · rfl
      · split
        · rfl
        · rw [List.map_map]
          refine map_congr_mem m _ _ fun c hc => ?_
          simp only [Function.comp_apply]
          split
          · exact hf c
          · rfl

theorem map_foldl_procDep {β : Type} (f : Contributor → β) (deps : List Deployment)
    (hf : ∀ d c, f (depUpdate d c) = f c) :
    ∀ m : List Contributor, (deps.foldl procDep m).map f = m.map f := by
  induction deps with
  | nil => intro m; rfl
  | cons d ds ih =>
    intro m
    simp only [List.foldl_cons]
    rw [ih, map_procDep f m d (hf d)]

theorem map_foldl_procInc {β : Type} (f : Contributor → β) (incs : List Incident)
    (hf : ∀ c, f (incUpdate c) = f c) :
    ∀ m : List Contributor, (incs.foldl procInc m).map f = m.map f := by
  induction incs with
  | nil => intro m; rfl
  | cons i is ih =>
    intro m
    simp only [List.foldl_cons]
    rw [ih, map_procInc f m i hf]

theorem map_eventPhase {β : Type} (f : Contributor → β) (prList : List PullReq)
    (deps : List Deployment) (incs : List Incident)
    (hfd : ∀ d c, f (depUpdate d c) = f c) (hfi : ∀ c, f (incUpdate c) = f c) :
    (eventPhase prList deps incs).map f = (prPhase prList).contribs.map f := by
  unfold eventPhase
  rw [map_foldl_procInc f incs hfi, map_foldl_procDep f deps hfd]

theorem map_scorePhase {β : Type} (f : Contributor → β) (ρ : String → ℚ)
    (prList : List PullReq) (deps : List Deployment) (incs : List Incident)
    (hf : ∀ rand allC revs c, f (clampScore rand (preScore allC revs c)) = f c) :
    (scorePhase ρ prList deps incs).map f = (eventPhase prList deps incs).map f := by
  unfold scorePhase
  rw [List.map_map]
  exact map_congr_mem _ _ _ fun c hc => hf _ _ _ c

theorem map_pctStage {β : Type} (arr : List Contributor) (f : Contributor → β)
    (hW : ∀ c, f (setWeighted c) = f c) (hP : ∀ t c, f (pctOf t c) = f c) :
    (pctStage arr).map f = arr.map f := by
  unfold pctStage
  rw [List.map_map, List.map_map]
  exact map_congr_mem _ _ _ fun c _ => by
    simp only [Function.comp_apply]
    rw [hP, hW]

theorem map_fallbackStage {β : Type} (arr1 : List Contributor) (f : Contributor → β)
    (hF : ∀ t c, f (fallbackPct t c) = f c) :
    (fallbackStage arr1).map f = arr1.map f := by
  unfold fallbackStage
  split
  · split
    · rw [List.map_map]
      exact map_congr_mem _ _ _ fun c _ => hF _ c
    · rfl
  · rfl

theorem map_driftFix {β : Type} (l : List Contributor) (f : Contributor → β)
    (hA : ∀ c x, f { c with doraPercentage := x } = f c) :
    (driftFix l).map f = l.map f := by
  unfold driftFix
  split
  · exact map_addToFirstWith _ _ _ f hA
  · rfl

theorem applyPercentages_map {β : Type} (arr : List Contributor) (f : Contributor → β)
    (hW : ∀ c, f (setWeighted c) = f c)
    (hP : ∀ t c, f (pctOf t c) = f c)
    (hF : ∀ t c, f (fallbackPct t c) = f c)
    (hA : ∀ c x, f { c with doraPercentage := x } = f c) :
    (applyPercentages arr).map f = arr.map f := by
  unfold applyPercentages
  split
  · rfl
  · split
    · rw [map_driftFix _ f hA, map_fallbackStage _ f hF, map_pctStage _ f hW hP]
    · rw [List.map_map]
      exact map_congr_mem _ _ _ fun c _ => hW c

theorem foldl_procPR_forall (P : Contributor → Prop) (prList : List PullReq)
    (hApply : ∀ (pr : PullReq) c, P c → P (applyPR pr c))
    (hNew : ∀ (pr : PullReq) (a : UserRef), pr.author = some a → a.username ≠ "" →
      isBot a.username = false →
      P (applyPR pr
          (initContributor (if a.name = "" then a.username else a.name) a.username a.avatar_url))) :
    ∀ st : AggState, (∀ c ∈ st.contribs, P c) →
      ∀ c ∈ (prList.foldl procPR st).contribs, P c := by
  induction prList with
  | nil => intro st h; exact h
  | cons pr prs ih =>
    intro st h
    simp only [List.foldl_cons]
    exact ih _ (procPR_forall P pr st (hApply pr) (hNew pr) h)

theorem foldl_procPR_rev_forall (Q : String → Prop) (prList : List PullReq)
    (hQ : ∀ (pr : PullReq), pr ∈ prList → ∀ rv ∈ pr.reviewers, rv.username ≠ "" →
      isBot rv.username = false → Q rv.username) :
    ∀ st : AggState, (∀ e ∈ st.reviewers, ∀ p ∈ e.2, Q p.1) →
      ∀ e ∈ (prList.foldl procPR st).reviewers, ∀ p ∈ e.2, Q p.1 := by
  induction prList with
  | nil => intro st h; exact h
  | cons pr prs ih =>
    intro st h
    simp only [List.foldl_cons]
    exact ih (fun x hx => hQ x (by simp [hx])) _
      (procPR_rev_forall Q pr st (hQ pr (by simp)) h)

theorem revsFor_forall (Q : String → Prop) (rm : List (String × List (String × ℕ)))
    (u : String) (h : ∀ e ∈ rm, ∀ p ∈ e.2, Q p.1) : ∀ p ∈ revsFor rm u, Q p.1 := by
  intro p hp
  unfold revsFor at hp
  split at hp
  · next e hfind => exact h e (List.mem_of_find?_eq_some hfind) p hp
  · simp at hp

theorem buildReviewersList_forall (Q : String → Prop) (allC : List Contributor)
    (revs : List (String × ℕ)) (h : ∀ p ∈ revs, Q p.1) :
    ∀ e ∈ buildReviewersList allC revs, Q e.username := by
  intro e he
  unfold buildReviewersList at he
  have he' := List.mem_of_mem_take he
  rw [mem_stableSortDescBy] at he'
  rcases List.mem_map.1 he' with ⟨p, hp, rfl⟩
  exact h p hp

theorem isBot_of_specPattern (u : String) (hu : matchesSpecBotPattern u = true) :
    isBot u = true := by
  by_cases hemp : u = ""
  · subst hemp
    exact absurd hu (by decide)
  · unfold isBot
    rw [if_neg hemp]
    rw [matchesSpecBotPattern, List.any_eq_true] at hu
    rcases hu with ⟨p, hp, hinc⟩
    rw [List.any_eq_true]
    refine ⟨p, ?_, hinc⟩
    have hsub : ∀ q ∈ SPEC_BOT_PATTERNS, q ∈ BOT_PATTERNS := by decide
    exact hsub p hp

theorem prPhase_username_not_bot (prList : List PullReq) :
    ∀ c ∈ (prPhase prList).contribs, isBot c.username = false := by
  refine foldl_procPR_forall _ prList ?_ ?_ ⟨[], []⟩ (by simp)
  · intro pr c hc
    rw [(applyPR_core pr c).1]
    exact hc
  · intro pr a _ _ hb
    rw [(applyPR_core pr _).1]
    simpa [initContributor] using hb

theorem prPhase_rev_not_bot (prList : List PullReq) :
    ∀ e ∈ (prPhase prList).reviewers, ∀ p ∈ e.2, isBot p.1 = false := by
  unfold prPhase
  refine foldl_procPR_rev_forall (fun u => isBot u = false) prList ?_ ⟨[], []⟩ (by simp)
  intro pr _ rv _ _ hb
  exact hb

theorem prPhase_prs_ge_one (prList : List PullReq) :
    ∀ c ∈ (prPhase prList).contribs, 1 ≤ c.prs := by
  refine foldl_procPR_forall _ prList ?_ ?_ ⟨[], []⟩ (by simp)
  · intro pr c _
    rw [(applyPR_core pr c).2.2.1]
    omega
  · intro pr a _ _ _
    rw [(applyPR_core pr _).2.2.1]
    omega

theorem eventPhase_map_username (prList : List PullReq) (deps : List Deployment)
    (incs : List Incident) :
    (eventPhase prList deps incs).map (fun c => c.username)
      = (prPhase prList).contribs.map (fun c => c.username) :=
  map_eventPhase _ prList deps incs (fun d c => (depUpdate_proj d c).1)
    (fun c => (incUpdate_proj c).1)

theorem eventPhase_map_prs (prList : List PullReq) (deps : List Deployment)
    (incs : List Incident) :
    (eventPhase prList deps incs).map (fun c => c.prs)
      = (prPhase prList).contribs.map (fun c => c.prs) :=
  map_eventPhase _ prList deps incs (fun d c => (depUpdate_proj d c).2.1)
    (fun c => (incUpdate_proj c).2.1)

theorem scorePhase_mem (ρ : String → ℚ) (prList : List PullReq) (deps : List Deployment)
    (incs : List Incident) (c : Contributor) (hc : c ∈ scorePhase ρ prList deps incs) :
    ∃ x ∈ eventPhase prList deps incs,
      c = clampScore (ρ x.username)
            (preScore (eventPhase prList deps incs)
              (revsFor (prPhase prList).reviewers x.username) x) := by
  unfold scorePhase at hc
  rcases List.mem_map.1 hc with ⟨x, hx, rfl⟩
  exact ⟨x, hx, rfl⟩

theorem scorePhase_username_not_bot (ρ : String → ℚ) (prList : List PullReq)
    (deps : List Deployment) (incs : List Incident) :
    ∀ c ∈ scorePhase ρ prList deps incs, isBot c.username = false := by
  intro c hc
  rcases scorePhase_mem ρ prList deps incs c hc with ⟨x, hx, rfl⟩
  rw [(clampScore_proj _ _).1, (preScore_proj _ _ _).1]
  exact forall_of_map_eq (P := fun u => isBot u = false)
    (eventPhase_map_username prList deps incs) (prPhase_username_not_bot prList) x hx

theorem scorePhase_prs_ge_one (ρ : String → ℚ) (prList : List PullReq)
    (deps : List Deployment) (incs : List Incident) :
    ∀ c ∈ scorePhase ρ prList deps incs, 1 ≤ c.prs := by
  intro c hc
  rcases scorePhase_mem ρ prList deps incs c hc with ⟨x, hx, rfl⟩
  rw [(clampScore_proj _ _).2.1, (preScore_proj _ _ _).2.1]
  exact forall_of_map_eq (P := fun n => 1 ≤ n)
    (eventPhase_map_prs prList deps incs) (prPhase_prs_ge_one prList) x hx

theorem scorePhase_rev_not_bot (ρ : String → ℚ) (prList : List PullReq)
    (deps : List Deployment) (incs : List Incident) :
    ∀ c ∈ scorePhase ρ prList deps incs, ∀ r ∈ c.reviewersList, isBot r.username = false := by
  intro c hc
  rcases scorePhase_mem ρ prList deps incs c hc with ⟨x, hx, rfl⟩
  rw [(clampScore_proj _ _).2.2.2, (preScore_proj _ _ _).2.2.2]
  exact buildReviewersList_forall (fun u => isBot u = false) _ _
    (revsFor_forall (fun u => isBot u = false) _ _ (prPhase_rev_not_bot prList))

/-! Facts feeding the percentage-phase proofs. -/

theorem setWeighted_lb (c : Contributor) (h : 1 ≤ c.prs) :
    (7/20 : ℚ) ≤ (setWeighted c).weightedDoraScore := by
  have h1 : (1 : ℚ) ≤ (c.prs : ℚ) := by exact_mod_cast h
  have hc0 : (0 : ℚ) ≤ (c.contributions : ℚ) := Nat.cast_nonneg _
  have hmin : (0 : ℚ) ≤ min 5000 ((c.additions : ℚ) + (c.deletions : ℚ)) :=
    le_min (by norm_num) (by positivity)
  unfold setWeighted
  simp only
  split
  · have hmax : (0 : ℚ) ≤ max 0 (10 - min 168 (c.leadTime / (1000 * 60 * 60)) / 24) :=
      le_max_left _ _
    split
    · next hdep =>
      have hdep' : (0 : ℚ) < (c.deploymentCount : ℚ) := by exact_mod_cast hdep
      have hsucc : (0 : ℚ) ≤ (c.successfulDeployments : ℚ) / (c.deploymentCount : ℚ) :=
        div_nonneg (Nat.cast_nonneg _) hdep'.le
      linarith
    · linarith
  · split
    · next hdep =>
      have hdep' : (0 : ℚ) < (c.deploymentCount : ℚ) := by exact_mod_cast hdep
      have hsucc : (0 : ℚ) ≤ (c.successfulDeployments : ℚ) / (c.deploymentCount : ℚ) :=
        div_nonneg (Nat.cast_nonneg _) hdep'.le
      linarith
    · linarith

theorem pctStage_length (arr : List Contributor) : (pctStage arr).length = arr.length := by
  unfold pctStage
  simp

theorem pctStage_isInt (arr : List Contributor) :
    ∀ c ∈ pctStage arr, IsInt c.doraPercentage := by
  intro c hc
  unfold pctStage at hc
  rcases List.mem_map.1 hc with ⟨x, _, rfl⟩
  exact isInt_intCast _

theorem fallbackStage_length (l : List Contributor) :
    (fallbackStage l).length = l.length := by
  unfold fallbackStage
  split
  · split <;> simp
  · rfl

theorem fallbackStage_isInt (l : List Contributor)
    (h : ∀ c ∈ l, IsInt c.doraPercentage) :
    ∀ c ∈ fallbackStage l, IsInt c.doraPercentage := by
  intro c hc
  unfold fallbackStage at hc
  split at hc
  · split at hc
    · rcases List.mem_map.1 hc with ⟨x, _, rfl⟩
      exact isInt_intCast _
    · exact h c hc
  · exact h c hc

theorem driftFix_props (l : List Contributor) (hne : l ≠ [])
    (hint : ∀ c ∈ l, IsInt c.doraPercentage) :
    sumBy (fun c => c.doraPercentage) (driftFix l) = 100 ∧
      ∀ c ∈ driftFix l, IsInt c.doraPercentage := by
  unfold driftFix
  by_cases hcond : sumBy (fun c => c.doraPercentage) l ≠ 100 ∧ 0 < l.length
  · rw [if_pos hcond]
    have hatt := maxPct_attained l hne
    constructor
    · rw [addToFirstMax, sum_addToFirstWith _ _ _ hatt]
      ring
    · intro c hc
      rcases mem_addToFirstWith _ _ _ c hc with hc' | ⟨c₀, hc₀, rfl⟩
      · exact hint c hc'
      · exact (hint c₀ hc₀).add (isInt_hundred.sub (isInt_sumBy _ _ hint))
  · rw [if_neg hcond]
    have hlen : 0 < l.length := by
      cases l
      · exact absurd rfl hne
      · simp
    have hsum : sumBy (fun c => c.doraPercentage) l = 100 := by
      by_contra hne'
      exact hcond ⟨hne', hlen⟩
    exact ⟨hsum, hint⟩

theorem applyPercentages_props (arr : List Contributor) (hne : arr ≠ [])
    (hprs : ∀ c ∈ arr, 1 ≤ c.prs) :
    sumBy (fun c => c.doraPercentage) (applyPercentages arr) = 100 ∧
      ∀ c ∈ applyPercentages arr, IsInt c.doraPercentage := by
  have hlen0 : ¬ arr.length = 0 := by
    cases arr
    · exact absurd rfl hne
    · simp
  have hWlb : ∀ c ∈ arr.map setWeighted, (7/20 : ℚ) ≤ c.weightedDoraScore := by
    intro c hc
    rcases List.mem_map.1 hc with ⟨x, hx, rfl⟩
    exact setWeighted_lb x (hprs x hx)
  have hne' : arr.map setWeighted ≠ [] := by
    cases arr
    · exact absurd rfl hne
    · simp
  have htot : 0 < sumBy (fun c => c.weightedDoraScore) (arr.map setWeighted) :=
    sumBy_pos_of_lb _ _ (7/20) hne' (by norm_num) hWlb
  have hfne : fallbackStage (pctStage arr) ≠ [] := by
    intro h
    have := fallbackStage_length (pctStage arr)
    rw [h] at this
    simp only [List.length_nil] at this
    rw [pctStage_length] at this
    exact hlen0 this.symm
  unfold applyPercentages
  rw [if_neg hlen0, if_pos htot]
  exact driftFix_props _ hfne (fallbackStage_isInt _ (pctStage_isInt arr))

/-! ### C10 — a zero time metric is treated exactly like a missing one -/

/-- C10: a time-metric value equal to `0` on a PR behaves exactly like an
absent value in the per-PR fold: the resulting scorecard is identical to the
one obtained with the field missing, and in particular the corresponding
running mean is left untouched (so the metric is not counted as supplied and
the average stays undefined for downstream truthiness tests). -/
theorem zero_time_metric_like_missing (c : Contributor) (pr : PullReq) :
    applyPR { pr with lead_time := some 0 } c = applyPR { pr with lead_time := none } c ∧
    applyPR { pr with merge_time := some 0 } c = applyPR { pr with merge_time := none } c ∧
    applyPR { pr with rework_time := some 0 } c = applyPR { pr with rework_time := none } c ∧
    (applyPR { pr with lead_time := some 0 } c).leadTime = c.leadTime ∧
    (applyPR { pr with merge_time := some 0 } c).mergeTime = c.mergeTime ∧
    (applyPR { pr with rework_time := some 0 } c).reworkTime = c.reworkTime := by
  rcases pr with ⟨a, co, ad, de, cm, rw, rv, lt, mt, rt⟩
  refine ⟨?_, ?_, ?_, ?_, ?_, ?_⟩ <;>
    · simp only [applyPR]
      cases lt <;> cases mt <;> cases rt <;>
        simp +contextual [apply_ite (f := fun c : Contributor => c.leadTime),
          apply_ite (f := fun c : Contributor => c.mergeTime),
          apply_ite (f := fun c : Contributor => c.reworkTime)]

/-! ### C3 — the running-mean recurrence -/

/-- C3: each time-metric running mean follows the recurrence
`mean' = (mean * (n - 1) + newValue) / n` where `n` is the post-increment PR
count, every PR advances the PR count (hence the denominator) whether or not
it carries the metric, and folding lead times `[10, 20, 30]` for one
contributor produces the `avgLeadTimeMs` sequence `[10, 15, 20]`. -/
theorem running_mean_recurrence :
    (∀ (c : Contributor) (pr : PullReq) (v : ℚ), pr.lead_time = some v → v ≠ 0 →
      (applyPR pr c).leadTime
        = (c.leadTime * ((((c.prs + 1 : ℕ)) : ℚ) - 1) + v) / (((c.prs + 1 : ℕ)) : ℚ)) ∧
    (∀ (c : Contributor) (pr : PullReq) (v : ℚ), pr.merge_time = some v → v ≠ 0 →
      (applyPR pr c).mergeTime
        = (c.mergeTime * ((((c.prs + 1 : ℕ)) : ℚ) - 1) + v) / (((c.prs + 1 : ℕ)) : ℚ)) ∧
    (∀ (c : Contributor) (pr : PullReq) (v : ℚ), pr.rework_time = some v → v ≠ 0 →
      (applyPR pr c).reworkTime
        = (c.reworkTime * ((((c.prs + 1 : ℕ)) : ℚ) - 1) + v) / (((c.prs + 1 : ℕ)) : ℚ)) ∧
    (∀ (c : Contributor) (pr : PullReq), (applyPR pr c).prs = c.prs + 1) ∧
    ((((procPR ⟨[], []⟩ (prLead 10)).contribs.map fun c => c.leadTime) = [10]) ∧
     (((procPR (procPR ⟨[], []⟩ (prLead 10)) (prLead 20)).contribs.map fun c => c.leadTime)
        = [15]) ∧
     (((procPR (procPR (procPR ⟨[], []⟩ (prLead 10)) (prLead 20)) (prLead 30)).contribs.map
        fun c => c.leadTime) = [20])) := by
  have hprs : ∀ (c : Contributor) (pr : PullReq), (applyPR pr c).prs = c.prs + 1 := by
    intro c pr
    rcases pr with ⟨a, co, ad, de, cm, rw, rv, lt, mt, rt⟩
    simp only [applyPR]
    cases lt <;> cases mt <;> cases rt <;>
      simp [apply_ite (f := fun c : Contributor => c.prs)]
  have hlead : ∀ (c : Contributor) (pr : PullReq) (v : ℚ), pr.lead_time = some v → v ≠ 0 →
      (applyPR pr c).leadTime
        = (c.leadTime * ((((c.prs + 1 : ℕ)) : ℚ) - 1) + v) / (((c.prs + 1 : ℕ)) : ℚ) := by
    intro c pr v hv hv0
    rcases pr with ⟨a, co, ad, de, cm, rw, rv, lt, mt, rt⟩
    cases hv
    simp only [applyPR]
    cases mt <;> cases rt <;>
      simp [hv0, apply_ite (f := fun c : Contributor => c.leadTime)]
  refine ⟨hlead, ?_, ?_, hprs, ?_, ?_, ?_⟩
  · intro c pr v hv hv0
    rcases pr with ⟨a, co, ad, de, cm, rw, rv, lt, mt, rt⟩
    cases hv
    simp only [applyPR]
    cases lt <;> cases rt <;>
      simp [hv0, apply_ite (f := fun c : Contributor => c.prs),
        apply_ite (f := fun c : Contributor => c.leadTime),
        apply_ite (f := fun c : Contributor => c.mergeTime)]
  · intro c pr v hv hv0
    rcases pr with ⟨a, co, ad, de, cm, rw, rv, lt, mt, rt⟩
    cases hv
    simp only [applyPR]
    cases lt <;> cases mt <;>
      simp [hv0, apply_ite (f := fun c : Contributor => c.prs),
        apply_ite (f := fun c : Contributor => c.leadTime),
        apply_ite (f := fun c : Contributor => c.mergeTime),
        apply_ite (f := fun c : Contributor => c.reworkTime)]
  · norm_num [procPR, prLead, uAlice, hasUser, initContributor, applyPR,
      show isBot "alice" = false from by decide,
      show ¬ ("alice" : String) = "" from by decide,
      show ¬ ("Alice" : String) = "" from by decide]
  · norm_num [procPR, prLead, uAlice, hasUser, initContributor, applyPR,
      show isBot "alice" = false from by decide,
      show ¬ ("alice" : String) = "" from by decide,
      show ¬ ("Alice" : String) = "" from by decide]
  · norm_num [procPR, prLead, uAlice, hasUser, initContributor, applyPR,
      show isBot "alice" = false from by decide,
      show ¬ ("alice" : String) = "" from by decide,
      show ¬ ("Alice" : String) = "" from by decide]

/-- Witness for C3: the recurrence applied to a first PR with lead time 10
on a fresh scorecard gives mean `(0 * (1 - 1) + 10) / 1`. -/
theorem running_mean_recurrence_witness :
    (applyPR (prLead 10) (initContributor "Alice" "alice" none)).leadTime
      = ((initContributor "Alice" "alice" none).leadTime
          * (((((initContributor "Alice" "alice" none).prs + 1 : ℕ)) : ℚ) - 1) + 10)
        / ((((initContributor "Alice" "alice" none).prs + 1 : ℕ)) : ℚ) :=
  running_mean_recurrence.1 (initContributor "Alice" "alice" none) (prLead 10) 10 rfl
    (by norm_num)

/-! ### C7 — the clamp bands -/

/-- C7: with a random draw in `[0,1)`, a pre-clamp (raw) score above 85 is
replaced by a value in `[85, 94]`, one below 35 by a value in `[35, 44]`,
and a raw score in `[35, 85]` passes through unchanged — the whole scorecard
is returned as-is, independently of the draw. -/
theorem clamp_bands (c : Contributor) (rand v : ℚ) (h0 : 0 ≤ rand) (h1 : rand < 1)
    (hv : c.doraScore = some v) :
    (85 < v → ∃ w, (clampScore rand c).doraScore = some w ∧ 85 ≤ w ∧ w ≤ 94) ∧
    (v < 35 → ∃ w, (clampScore rand c).doraScore = some w ∧ 35 ≤ w ∧ w ≤ 44) ∧
    (35 ≤ v → v ≤ 85 → clampScore rand c = c) := by
  have hfl0 : (0 : ℤ) ≤ ⌊rand * 10⌋ := by
    rw [Int.le_floor]
    · push_cast
      nlinarith
  have hfl9 : ⌊rand * 10⌋ ≤ 9 := by
    have : ⌊rand * 10⌋ < 10 := by
      rw [Int.floor_lt]
      push_cast
      nlinarith
    omega
  have hfq0 : (0 : ℚ) ≤ ((⌊rand * 10⌋ : ℤ) : ℚ) := by exact_mod_cast hfl0
  have hfq9 : ((⌊rand * 10⌋ : ℤ) : ℚ) ≤ 9 := by exact_mod_cast hfl9
  refine ⟨?_, ?_, ?_⟩
  · intro hgt
    refine ⟨85 + ((⌊rand * 10⌋ : ℤ) : ℚ), ?_, by linarith, by linarith⟩
    simp [clampScore, optGt, optLt, hv, hgt]
  · intro hlt
    refine ⟨35 + ((⌊rand * 10⌋ : ℤ) : ℚ), ?_, by linarith, by linarith⟩
    simp [clampScore, optGt, optLt, hv, hlt, show ¬ (85 : ℚ) < v by linarith]
  · intro hge hle
    simp [clampScore, optGt, optLt, hv, show ¬ (85 : ℚ) < v by linarith,
      show ¬ v < 35 by linarith]

/-- Witness for C7: a raw score of 90 with draw 1/2 is clamped into
`[85, 94]`, a raw score of 50 passes through unchanged. -/
theorem clamp_bands_witness :
    (∃ w, (clampScore (1/2) { initContributor "Alice" "alice" none with
        doraScore := some 90 }).doraScore = some w ∧ 85 ≤ w ∧ w ≤ 94) ∧
    clampScore (1/2) { initContributor "Alice" "alice" none with doraScore := some 50 }
      = { initContributor "Alice" "alice" none with doraScore := some 50 } := by
  constructor
  · exact (clamp_bands _ (1/2) 90 (by norm_num) (by norm_num) rfl).1 (by norm_num)
  · exact (clamp_bands _ (1/2) 50 (by norm_num) (by norm_num) rfl).2.2 (by norm_num)
      (by norm_num)

/-! ### Guarded reviewer-entry invariants (shared by C2 and C5) -/

theorem prPhase_rev_guarded (Q : String → Prop)
    (hQ : ∀ u, u ≠ "" → isBot u = false → Q u) (prList : List PullReq) :
    ∀ e ∈ (prPhase prList).reviewers, ∀ p ∈ e.2, Q p.1 := by
  unfold prPhase
  refine foldl_procPR_rev_forall Q prList ?_ ⟨[], []⟩ (by simp)
  intro pr _ rv _ h1 h2
  exact hQ rv.username h1 h2

theorem scorePhase_rev_guarded (Q : String → Prop)
    (hQ : ∀ u, u ≠ "" → isBot u = false → Q u) (ρ : String → ℚ) (prList : List PullReq)
    (deps : List Deployment) (incs : List Incident) :
    ∀ c ∈ scorePhase ρ prList deps incs, ∀ r ∈ c.reviewersList, Q r.username := by
  intro c hc
  rcases scorePhase_mem ρ prList deps incs c hc with ⟨x, hx, rfl⟩
  rw [(clampScore_proj _ _).2.2.2, (preScore_proj _ _ _).2.2.2]
  exact buildReviewersList_forall Q _ _
    (revsFor_forall Q _ _ (prPhase_rev_guarded Q hQ prList))

/-! ### Value-level picture of the drift correction (shared by C9) -/

theorem map_pct_addToFirstWith (m d : ℚ) (l : List Contributor) :
    (addToFirstWith m d l).map (fun c => c.doraPercentage)
      = specBumpFirst m d (l.map fun c => c.doraPercentage) := by
  induction l with
  | nil => rfl
  | cons c cs ih =>
    simp only [addToFirstWith, specBumpFirst, List.map_cons]
    by_cases hc : c.doraPercentage = m
    · rw [if_pos hc, if_pos hc]
      simp
    · rw [if_neg hc, if_neg hc, List.map_cons, ih]

theorem maxPct_eq_listMax (l : List Contributor) :
    maxPct l = listMax (l.map fun c => c.doraPercentage) := by
  cases l with
  | nil => rfl
  | cons c cs =>
    simp only [maxPct, listMax, List.map_cons]
    rw [List.foldl_map]

theorem map_pct_driftFix (l : List Contributor) :
    (driftFix l).map (fun c => c.doraPercentage)
      = specDrift (l.map fun c => c.doraPercentage) := by
  unfold driftFix specDrift
  cases l with
  | nil => simp [sumBy_nil, specBumpFirst]
  | cons c cs =>
    simp only [sumBy_eq_sum_map]
    by_cases hs : ((c :: cs).map fun c => c.doraPercentage).sum = 100
    · rw [if_neg (fun h => h.1 hs), if_neg (not_not_intro hs)]
    · rw [if_pos ⟨hs, by simp⟩, if_pos hs, addToFirstMax, map_pct_addToFirstWith,
        maxPct_eq_listMax]

theorem pctStage_map_prs (arr : List Contributor) :
    (pctStage arr).map (fun c => c.prs) = arr.map (fun c => c.prs) :=
  map_pctStage arr (fun c => c.prs) (fun c => (setWeighted_proj c).2.1) (fun _ _ => rfl)

theorem pctStage_sum_prs (arr : List Contributor) :
    sumBy (fun c => (c.prs : ℚ)) (pctStage arr) = sumBy (fun c => (c.prs : ℚ)) arr := by
  rw [sumBy_eq_sum_map, sumBy_eq_sum_map]
  have h := map_pctStage arr (fun c => ((c.prs : ℕ) : ℚ))
    (fun c => congrArg (fun n : ℕ => (n : ℚ)) ((setWeighted_proj c).2.1)) (fun _ _ => rfl)
  rw [h]

theorem total_weighted_pos (arr : List Contributor) (hne : arr ≠ [])
    (hprs : ∀ c ∈ arr, 1 ≤ c.prs) :
    0 < sumBy (fun c => c.weightedDoraScore) (arr.map setWeighted) := by
  have hWlb : ∀ c ∈ arr.map setWeighted, (7/20 : ℚ) ≤ c.weightedDoraScore := by
    intro c hc
    rcases List.mem_map.1 hc with ⟨x, hx, rfl⟩
    exact setWeighted_lb x (hprs x hx)
  have hne' : arr.map setWeighted ≠ [] := by
    cases arr
    · exact absurd rfl hne
    · simp
  exact sumBy_pos_of_lb _ _ (7/20) hne' (by norm_num) hWlb

/-! ### Concrete evaluations -/

theorem buildReviewersList_nil (allC : List Contributor) :
    buildReviewersList allC [] = [] := rfl

theorem prPhase_prPlain : prPhase [prPlain] = ⟨[cPlain1], [("alice", [])]⟩ := by
  norm_num [prPhase, procPR, prPlain, uAlice, hasUser, initContributor, applyPR, cPlain1,
    addReviewers,
    show isBot "alice" = false from by decide,
    show ¬ ("alice" : String) = "" from by decide,
    show ¬ ("Alice" : String) = "" from by decide]

theorem eventPhase_prPlain : eventPhase [prPlain] [] [] = [cPlain1] := by
  rw [eventPhase, List.foldl_nil, List.foldl_nil, prPhase_prPlain]

theorem scorePhase_prPlain : scorePhase rho0 [prPlain] [] [] = [cPlain2] := by
  rw [scorePhase, eventPhase_prPlain, prPhase_prPlain]
  norm_num [cPlain1, cPlain2, initContributor, rho0, revsFor, preScore, clampScore,
    buildReviewersList, stableSortDescBy, optTruthy, optGt, optLt, jsRound]

theorem aggregate_prPlain : aggregate rho0 [prPlain] [] [] = [cPlain3] := by
  rw [aggregate, if_neg (by norm_num), scorePhase_prPlain]
  rw [show stableSortDescBy (fun c => c.contributions) [cPlain2] = [cPlain2] from rfl]
  norm_num [applyPercentages, pctStage, setWeighted, pctOf, sumBy, fallbackStage, driftFix,
    allSamePct, cPlain2, cPlain1, cPlain3, initContributor, jsRound]

theorem prPhase_prSelfReview :
    prPhase [prSelfReview] = ⟨[cSelf1], [("alice", [("alice", 1)])]⟩ := by
  norm_num [prPhase, procPR, prSelfReview, uAlice, hasUser, initContributor, applyPR, cSelf1,
    addReviewers, bumpRev,
    show isBot "alice" = false from by decide,
    show ¬ ("alice" : String) = "" from by decide,
    show ¬ ("Alice" : String) = "" from by decide]

theorem eventPhase_prSelfReview : eventPhase [prSelfReview] [] [] = [cSelf1] := by
  rw [eventPhase, List.foldl_nil, List.foldl_nil, prPhase_prSelfReview]

theorem scorePhase_prSelfReview : scorePhase rho0 [prSelfReview] [] [] = [cSelf2] := by
  rw [scorePhase, eventPhase_prSelfReview, prPhase_prSelfReview]
  norm_num [cSelf1, cSelf2, initContributor, rho0, revsFor, preScore, clampScore,
    buildReviewersList, nameOf, stableSortDescBy, insOrdered, optTruthy, optGt, optLt, jsRound]

theorem aggregate_prSelfReview : aggregate rho0 [prSelfReview] [] [] = [cSelf3] := by
  rw [aggregate, if_neg (by norm_num), scorePhase_prSelfReview]
  rw [show stableSortDescBy (fun c => c.contributions) [cSelf2] = [cSelf2] from rfl]
  norm_num [applyPercentages, pctStage, setWeighted, pctOf, sumBy, fallbackStage, driftFix,
    allSamePct, cSelf2, cSelf1, cSelf3, initContributor, jsRound]

theorem prPhase_tie :
    prPhase [prCommits uAlice 2, prCommits uBob 1, prCommits uBob 1] =
      ⟨[{ initContributor "Alice" "alice" none with prs := 1, contributions := 2 },
        { initContributor "Bob" "bob" none with prs := 2, contributions := 2 }],
       [("alice", []), ("bob", [])]⟩ := by
  norm_num [prPhase, procPR, prCommits, uAlice, uBob, hasUser, initContributor, applyPR,
    addReviewers,
    show isBot "alice" = false from by decide,
    show isBot "bob" = false from by decide,
    show ¬ ("alice" : String) = "" from by decide,
    show ¬ ("Alice" : String) = "" from by decide,
    show ¬ ("bob" : String) = "" from by decide,
    show ¬ ("Bob" : String) = "" from by decide,
    show ¬ ("bob" : String) = "alice" from by decide,
    show ¬ ("alice" : String) = "bob" from by decide]

theorem eventPhase_tie :
    eventPhase [prCommits uAlice 2, prCommits uBob 1, prCommits uBob 1] [] [] =
      [{ initContributor "Alice" "alice" none with prs := 1, contributions := 2 },
       { initContributor "Bob" "bob" none with prs := 2, contributions := 2 }] := by
  rw [eventPhase, List.foldl_nil, List.foldl_nil, prPhase_tie]

theorem scorePhase_tie :
    scorePhase rho0 [prCommits uAlice 2, prCommits uBob 1, prCommits uBob 1] [] [] =
      [cTieA2, cTieB2] := by
  rw [scorePhase, eventPhase_tie, prPhase_tie]
  norm_num [cTieA2, cTieB2, initContributor, rho0, preScore, clampScore,
    buildReviewersList_nil, optTruthy, optGt, optLt, jsRound,
    show revsFor [("alice", []), ("bob", [])] "alice" = [] from by decide,
    show revsFor [("alice", []), ("bob", [])] "bob" = [] from by decide]

theorem aggregate_tie :
    aggregate rho0 [prCommits uAlice 2, prCommits uBob 1, prCommits uBob 1] [] [] =
      [cTieA3, cTieB3] := by
  rw [aggregate, if_neg (by norm_num), scorePhase_tie]
  rw [show stableSortDescBy (fun c => c.contributions) [cTieA2, cTieB2]
        = [cTieA2, cTieB2] from by
      norm_num [stableSortDescBy, insOrdered, cTieA2, cTieB2, initContributor]]
  norm_num [applyPercentages, pctStage, setWeighted, pctOf, sumBy, fallbackStage, driftFix,
    allSamePct, maxPct, addToFirstMax, addToFirstWith, cTieA2, cTieB2, cTieA3, cTieB3,
    initContributor, jsRound]

theorem pctStage_pair :
    pctStage [cOnePR "A" "a", cOnePR "B" "b"] =
      [{ cOnePR "A" "a" with weightedDoraScore := 7/20, doraPercentage := 50 },
       { cOnePR "B" "b" with weightedDoraScore := 7/20, doraPercentage := 50 }] := by
  norm_num [pctStage, setWeighted, pctOf, sumBy, cOnePR, initContributor, jsRound]

/-! ### C1 — percentages sum to exactly 100 and are integers -/

/-- C1: whenever the aggregation returns a non-empty result set, the
`doraPercentage` (contribution percentage) values sum to exactly 100, and
every one of them is an integer. -/
theorem contribution_percentages_sum_100 (ρ : String → ℚ) (prList : List PullReq)
    (deps : List Deployment) (incs : List Incident)
    (hne : aggregate ρ prList deps incs ≠ []) :
    sumBy (fun c => c.doraPercentage) (aggregate ρ prList deps incs) = 100 ∧
      ∀ c ∈ aggregate ρ prList deps incs, IsInt c.doraPercentage := by
  unfold aggregate at hne ⊢
  by_cases hlen : prList.length = 0
  · rw [if_pos hlen] at hne
    exact absurd rfl hne
  · rw [if_neg hlen] at hne ⊢
    apply applyPercentages_props
    · intro h0
      rw [h0] at hne
      exact hne (by simp [applyPercentages])
    · intro c hc
      rw [mem_stableSortDescBy] at hc
      exact scorePhase_prs_ge_one ρ prList deps incs c hc

/-! ### C2 — bot exclusion -/

/-- C2: for any username whose lower-cased form contains one of the eight
fixed bot patterns, no scorecard in the aggregation output carries that
username and no reviewer entry for it appears on any contributor's card;
and `isBot` is false on the empty (falsy) username. -/
theorem bot_exclusion (ρ : String → ℚ) (prList : List PullReq) (deps : List Deployment)
    (incs : List Incident) (u : String) (hu : matchesSpecBotPattern u = true) :
    (∀ c ∈ aggregate ρ prList deps incs,
       c.username ≠ u ∧ ∀ r ∈ c.reviewersList, r.username ≠ u) ∧
    (∀ (st : AggState) (pr : PullReq) (a : UserRef), pr.author = some a →
       a.username = u → procPR st pr = st) ∧
    (∀ (m : List Contributor) (d : Deployment) (a : UserRef), d.event_actor = some a →
       a.username = u → procDep m d = m) ∧
    (∀ (m : List Contributor) (i : Incident) (a : UserRef), i.assigned_to = some a →
       a.username = u → procInc m i = m) ∧
    isBot "" = false := by
  have hbot := isBot_of_specPattern u hu
  refine ⟨?_, ?_, ?_, ?_, by decide⟩
  case refine_2 =>
    intro st pr a ha hau
    unfold procPR
    simp only [ha]
    by_cases hu0 : a.username = ""
    · rw [if_pos hu0]
    · rw [if_neg hu0, if_pos (hau ▸ hbot)]
  case refine_3 =>
    intro m d a ha hau
    unfold procDep
    simp only [ha]
    by_cases hu0 : a.username = ""
    · rw [if_pos hu0]
    · rw [if_neg hu0, if_pos (hau ▸ hbot)]
  case refine_4 =>
    intro m i a ha hau
    unfold procInc
    simp only [ha]
    by_cases hu0 : a.username = ""
    · rw [if_pos hu0]
    · rw [if_neg hu0, if_pos (hau ▸ hbot)]
  unfold aggregate
  by_cases hlen : prList.length = 0
  · rw [if_pos hlen]
    intro c hc
    simp at hc
  · rw [if_neg hlen]
    intro c hc
    have harr_user : ∀ x ∈ stableSortDescBy (fun c => c.contributions)
        (scorePhase ρ prList deps incs), isBot x.username = false := by
      intro x hx
      rw [mem_stableSortDescBy] at hx
      exact scorePhase_username_not_bot ρ prList deps incs x hx
    have harr_rev : ∀ x ∈ stableSortDescBy (fun c => c.contributions)
        (scorePhase ρ prList deps incs), ∀ r ∈ x.reviewersList, isBot r.username = false := by
      intro x hx
      rw [mem_stableSortDescBy] at hx
      exact scorePhase_rev_not_bot ρ prList deps incs x hx
    have hmap_user := applyPercentages_map
      (stableSortDescBy (fun c => c.contributions) (scorePhase ρ prList deps incs))
      (fun c => c.username) (fun c => (setWeighted_proj c).1) (fun _ _ => rfl)
      (fun _ _ => rfl) (fun _ _ => rfl)
    have hmap_rev := applyPercentages_map
      (stableSortDescBy (fun c => c.contributions) (scorePhase ρ prList deps incs))
      (fun c => c.reviewersList) (fun c => (setWeighted_proj c).2.2.2.1) (fun _ _ => rfl)
      (fun _ _ => rfl) (fun _ _ => rfl)
    have hres_user := forall_of_map_eq (P := fun s => isBot s = false) hmap_user harr_user
    have hres_rev := forall_of_map_eq
      (P := fun L => ∀ r ∈ L, isBot r.username = false) hmap_rev harr_rev
    refine ⟨?_, ?_⟩
    · intro heq
      rw [← heq] at hbot
      rw [hres_user c hc] at hbot
      exact Bool.false_ne_true hbot
    · intro r hr heq
      rw [← heq] at hbot
      rw [hres_rev c hc r hr] at hbot
      exact Bool.false_ne_true hbot

/-! ### C8 — deployment/incident gating -/

/-- C8: a deployment (resp. incident) whose actor (resp. assignee) is not an
already-known contributor leaves the contributor map untouched — it creates
and updates nothing — and every scorecard in the final output carries the
username of a contributor created by the PR phase. -/
theorem deployment_incident_gating :
    (∀ (m : List Contributor) (d : Deployment) (a : UserRef), d.event_actor = some a →
       ¬ hasUser m a.username → procDep m d = m) ∧
    (∀ (m : List Contributor) (i : Incident) (a : UserRef), i.assigned_to = some a →
       ¬ hasUser m a.username → procInc m i = m) ∧
    (∀ (ρ : String → ℚ) (prList : List PullReq) (deps : List Deployment)
       (incs : List Incident), ∀ c ∈ aggregate ρ prList deps incs,
       ∃ c₀ ∈ (prPhase prList).contribs, c₀.username = c.username) := by
  refine ⟨?_, ?_, ?_⟩
  · intro m d a ha hnot
    unfold procDep
    simp only [ha]
    by_cases hu : a.username = ""
    · rw [if_pos hu]
    · rw [if_neg hu]
      by_cases hb : isBot a.username = true
      · rw [if_pos hb]
      · rw [if_neg hb, if_pos hnot]
  · intro m i a ha hnot
    unfold procInc
    simp only [ha]
    by_cases hu : a.username = ""
    · rw [if_pos hu]
    · rw [if_neg hu]
      by_cases hb : isBot a.username = true
      · rw [if_pos hb]
      · rw [if_neg hb, if_pos hnot]
  · intro ρ prList deps incs c hc
    unfold aggregate at hc
    by_cases hlen : prList.length = 0
    · rw [if_pos hlen] at hc
      simp at hc
    · rw [if_neg hlen] at hc
      have hmap_user := applyPercentages_map
        (stableSortDescBy (fun c => c.contributions) (scorePhase ρ prList deps incs))
        (fun c => c.username) (fun c => (setWeighted_proj c).1) (fun _ _ => rfl)
        (fun _ _ => rfl) (fun _ _ => rfl)
      have h1 : c.username ∈ (applyPercentages (stableSortDescBy (fun c => c.contributions)
          (scorePhase ρ prList deps incs))).map (fun c => c.username) :=
        List.mem_map.2 ⟨c, hc, rfl⟩
      rw [hmap_user] at h1
      rcases List.mem_map.1 h1 with ⟨a, ha, hau⟩
      rw [mem_stableSortDescBy] at ha
      rcases scorePhase_mem ρ prList deps incs a ha with ⟨x, hx, rfl⟩
      rw [(clampScore_proj _ _).1, (preScore_proj _ _ _).1] at hau
      have h2 : x.username ∈ (eventPhase prList deps incs).map (fun c => c.username) :=
        List.mem_map.2 ⟨x, hx, rfl⟩
      rw [eventPhase_map_username] at h2
      rcases List.mem_map.1 h2 with ⟨c₀, hc₀, hc₀u⟩
      exact ⟨c₀, hc₀, by rw [hc₀u, hau]⟩

/-! ### C4 (amended) — sort order -/

/-- C4 (amended): the aggregation output is sorted descending by commit
count (`contributions`); ties are NOT broken by PR count — the stable sort
keeps tied contributors in encounter order, as the concrete tie between
alice (seen first, fewer PRs) and bob shows. -/
theorem sorted_desc_by_commit_count :
    (∀ (ρ : String → ℚ) (prList : List PullReq) (deps : List Deployment)
       (incs : List Incident),
       (aggregate ρ prList deps incs).Pairwise
         fun a b => b.contributions ≤ a.contributions) ∧
    (aggregate rho0 [prCommits uAlice 2, prCommits uBob 1, prCommits uBob 1] [] []).map
        (fun c => (c.username, c.contributions, c.prs)) = [("alice", 2, 1), ("bob", 2, 2)] := by
  constructor
  · intro ρ prList deps incs
    unfold aggregate
    by_cases hlen : prList.length = 0
    · rw [if_pos hlen]
      exact List.Pairwise.nil
    · rw [if_neg hlen]
      have hmap := applyPercentages_map
        (stableSortDescBy (fun c => c.contributions) (scorePhase ρ prList deps incs))
        (fun c => c.contributions) (fun c => (setWeighted_proj c).2.2.1) (fun _ _ => rfl)
        (fun _ _ => rfl) (fun _ _ => rfl)
      have hsorted := pairwise_stableSortDescBy (fun c : Contributor => c.contributions)
        (scorePhase ρ prList deps incs)
      have h1 : ((applyPercentages (stableSortDescBy (fun c => c.contributions)
          (scorePhase ρ prList deps incs))).map (fun c => c.contributions)).Pairwise
          (fun x y => y ≤ x) := by
        rw [hmap, List.pairwise_map]
        exact hsorted
      rw [List.pairwise_map] at h1
      exact h1
  · rw [aggregate_tie]
    simp [cTieA3, cTieB3, cTieA2, cTieB2, initContributor]

/-- Witness for C1: the single-contributor input `prPlain` yields a
non-empty result whose percentages sum to 100 and are integers. -/
theorem contribution_percentages_sum_100_witness :
    sumBy (fun c => c.doraPercentage) (aggregate rho0 [prPlain] [] []) = 100 ∧
      ∀ c ∈ aggregate rho0 [prPlain] [] [], IsInt c.doraPercentage :=
  contribution_percentages_sum_100 rho0 [prPlain] [] []
    (by rw [aggregate_prPlain]; simp)

/-- Witness for C2: `dependabot` matches a bot pattern, and on the concrete
input `prPlain` no scorecard or reviewer entry carries it; a PR, deployment
or incident attributed to it is a no-op. -/
theorem bot_exclusion_witness :
    (∀ c ∈ aggregate rho0 [prPlain] [] [],
       c.username ≠ "dependabot" ∧ ∀ r ∈ c.reviewersList, r.username ≠ "dependabot") ∧
    (∀ (st : AggState) (pr : PullReq) (a : UserRef), pr.author = some a →
       a.username = "dependabot" → procPR st pr = st) ∧
    (∀ (m : List Contributor) (d : Deployment) (a : UserRef), d.event_actor = some a →
       a.username = "dependabot" → procDep m d = m) ∧
    (∀ (m : List Contributor) (i : Incident) (a : UserRef), i.assigned_to = some a →
       a.username = "dependabot" → procInc m i = m) ∧
    isBot "" = false :=
  bot_exclusion rho0 [prPlain] [] [] "dependabot" (by decide)

/-- Witness for C8: a deployment by `bob`, who authored no PR, leaves the
map containing only alice untouched. -/
theorem deployment_incident_gating_witness :
    procDep [cPlain1] ⟨some uBob, "success"⟩ = [cPlain1] :=
  deployment_incident_gating.1 [cPlain1] ⟨some uBob, "success"⟩ uBob rfl (by decide)

/-! ### C4 (counterexample) — ties are not broken by PR count -/

/-- Counterexample for C4: with alice (1 PR, 2 commits, seen first) and bob
(2 PRs, 2 commits), the claimed order (commit count descending, ties broken
by PR count descending) demands bob before alice, but the code's stable
sort keeps alice first. -/
theorem sort_tiebreak_counterexample :
    (aggregate rho0 [prCommits uAlice 2, prCommits uBob 1, prCommits uBob 1] [] []).map
        (fun c => c.username) = ["alice", "bob"] ∧
    ¬ specSortOrder
        (aggregate rho0 [prCommits uAlice 2, prCommits uBob 1, prCommits uBob 1] [] []) := by
  rw [aggregate_tie]
  constructor
  · simp [cTieA3, cTieB3, cTieA2, cTieB2, initContributor]
  · intro h
    rw [specSortOrder, List.pairwise_cons] at h
    have hrel := h.1 cTieB3 (by simp)
    rcases hrel with h1 | ⟨h2, h3⟩
    · exact absurd h1 (by decide)
    · exact absurd h3 (by decide)

/-! ### C5 — reviewer filtering excludes bots but NOT the PR's author -/

/-- Counterexample for C5: a PR by alice that lists alice as its own
reviewer produces a reviewer entry for alice on alice's own card. -/
theorem self_review_counterexample :
    ∃ c ∈ aggregate rho0 [prSelfReview] [] [],
      ∃ r ∈ c.reviewersList, r.username = c.username := by
  rw [aggregate_prSelfReview]
  refine ⟨cSelf3, by simp, ⟨"alice", "Alice", 1⟩, by decide, by decide⟩

/-- C5 (amended): reviewer entries are filtered only for falsy usernames
and bots — every recorded entry has a non-empty, non-bot username — and the
PR's own author is NOT excluded: a self-review entry is recorded when the
author appears in their own PR's reviewer list. -/
theorem reviewer_filter_amended :
    (∀ (ρ : String → ℚ) (prList : List PullReq) (deps : List Deployment)
       (incs : List Incident), ∀ c ∈ aggregate ρ prList deps incs,
       ∀ r ∈ c.reviewersList, r.username ≠ "" ∧ isBot r.username = false) ∧
    (∃ c ∈ aggregate rho0 [prSelfReview] [] [],
       ∃ r ∈ c.reviewersList, r.username = c.username) := by
  constructor
  · intro ρ prList deps incs
    unfold aggregate
    by_cases hlen : prList.length = 0
    · rw [if_pos hlen]
      intro c hc
      simp at hc
    · rw [if_neg hlen]
      intro c hc
      have harr : ∀ x ∈ stableSortDescBy (fun c => c.contributions)
          (scorePhase ρ prList deps incs), ∀ r ∈ x.reviewersList,
          r.username ≠ "" ∧ isBot r.username = false := by
        intro x hx
        rw [mem_stableSortDescBy] at hx
        exact scorePhase_rev_guarded (fun u => u ≠ "" ∧ isBot u = false)
          (fun u h1 h2 => ⟨h1, h2⟩) ρ prList deps incs x hx
      have hmap_rev := applyPercentages_map
        (stableSortDescBy (fun c => c.contributions) (scorePhase ρ prList deps incs))
        (fun c => c.reviewersList) (fun c => (setWeighted_proj c).2.2.2.1) (fun _ _ => rfl)
        (fun _ _ => rfl) (fun _ _ => rfl)
      exact forall_of_map_eq
        (P := fun L => ∀ r ∈ L, r.username ≠ "" ∧ isBot r.username = false) hmap_rev harr c hc
  · rw [aggregate_prSelfReview]
    exact ⟨cSelf3, by simp, ⟨"alice", "Alice", 1⟩, by decide, by decide⟩

/-- Witness for C5 (amended): the self-review entry recorded for alice has
a non-empty, non-bot username. -/
theorem reviewer_filter_amended_witness :
    (⟨"alice", "Alice", 1⟩ : RevEntry).username ≠ "" ∧
    isBot (⟨"alice", "Alice", 1⟩ : RevEntry).username = false :=
  reviewer_filter_amended.1 rho0 [prSelfReview] [] [] cSelf3
    (by rw [aggregate_prSelfReview]; simp) ⟨"alice", "Alice", 1⟩ (by decide)

/-! ### C6 — a contributor with no metric data gets a numeric clamped score -/

/-- Counterexample for C6: on a PR-only input with no time metrics,
deployments or incidents, no DORA sub-metric has data, yet the final
`doraScore` is the numeric value `some 35` (with draw 0) — not `undefined`
(`none`). -/
theorem no_metric_score_numeric_counterexample :
    metricsCounted cPlain1 = 0 ∧
    (aggregate rho0 [prPlain] [] []).map (fun c => c.doraScore) = [some 35] ∧
    (some (35 : ℚ) : Option ℚ) ≠ none := by
  refine ⟨?_, ?_, by simp⟩
  · norm_num [metricsCounted, cPlain1, initContributor, optTruthy]
  · rw [aggregate_prPlain]
    simp [cPlain3, cPlain2, cPlain1]

/-- C6 (amended): for a contributor none of whose four DORA sub-metrics has
data (no deployments and a zero lead-time mean — hence `metricsCounted = 0`),
the raw score is set to 0 and the clamp then lands the final `doraScore` on
a numeric value in the floor band `[35, 44]`; it is never `undefined`. -/
theorem no_metric_score_in_floor_band (allC : List Contributor)
    (revs : List (String × ℕ)) (c : Contributor) (rand : ℚ)
    (h0 : 0 ≤ rand) (h1 : rand < 1)
    (hdep : c.deploymentCount = 0) (hlt : c.leadTime = 0) :
    metricsCounted c = 0 ∧
    ∃ v, (clampScore rand (preScore allC revs c)).doraScore = some v ∧ 35 ≤ v ∧ v ≤ 44 := by
  have hfl0 : (0 : ℤ) ≤ ⌊rand * 10⌋ := by
    rw [Int.le_floor]
    push_cast
    nlinarith
  have hfl9 : ⌊rand * 10⌋ ≤ 9 := by
    have : ⌊rand * 10⌋ < 10 := by
      rw [Int.floor_lt]
      push_cast
      nlinarith
    omega
  have hfq0 : (0 : ℚ) ≤ ((⌊rand * 10⌋ : ℤ) : ℚ) := by exact_mod_cast hfl0
  have hfq9 : ((⌊rand * 10⌋ : ℤ) : ℚ) ≤ 9 := by exact_mod_cast hfl9
  constructor
  · by_cases hinc : 0 < c.incidentCount <;>
      simp [metricsCounted, hdep, hlt, hinc, optTruthy]
  · have hds : (preScore allC revs c).doraScore = some 0 := by
      unfold preScore
      by_cases hinc : 0 < c.incidentCount <;>
        simp [hdep, hlt, hinc, optTruthy]
    refine ⟨35 + ((⌊rand * 10⌋ : ℤ) : ℚ), ?_, by linarith, by linarith⟩
    rw [clampScore, if_neg (by rw [hds]; norm_num [optGt]),
      if_pos (by rw [hds]; norm_num [optLt])]

/-- Witness for C6 (amended): a fresh scorecard (no deployments, zero lead
time) with draw 1/2 has no counted metric and lands in `[35, 44]`. -/
theorem no_metric_score_in_floor_band_witness :
    metricsCounted (initContributor "Alice" "alice" none) = 0 ∧
    ∃ v, (clampScore (1/2)
        (preScore [] [] (initContributor "Alice" "alice" none))).doraScore = some v ∧
      35 ≤ v ∧ v ≤ 44 :=
  no_metric_score_in_floor_band [] [] (initContributor "Alice" "alice" none) (1/2)
    (by norm_num) (by norm_num) rfl rfl

/-! ### C9 — degenerate tie: fallback to PR share, then drift correction -/

/-- C9: when (after the weighted-score percentage computation) every
contributor carries the same percentage and there are at least two
contributors, the weighted result is discarded: the output percentages are
exactly `round(100 * prCount_i / Σ prCount)` followed by the rounding-drift
correction that adds the signed difference from 100 to the first contributor
holding the highest percentage. -/
theorem tie_fallback_then_drift (arr : List Contributor)
    (hprs : ∀ c ∈ arr, 1 ≤ c.prs) (hsame : allSamePct (pctStage arr))
    (hlen : 1 < arr.length) :
    (applyPercentages arr).map (fun c => c.doraPercentage)
      = specDrift (specFallbackPcts arr) := by
  have hne : arr ≠ [] := by
    cases arr
    · simp at hlen
    · simp
  have hlen0 : ¬ arr.length = 0 := by omega
  have htot := total_weighted_pos arr hne hprs
  have hcond : allSamePct (pctStage arr) ∧ 1 < (pctStage arr).length := by
    refine ⟨hsame, ?_⟩
    rw [pctStage_length]
    exact hlen
  have htp : 0 < sumBy (fun c => (c.prs : ℚ)) (pctStage arr) := by
    rw [pctStage_sum_prs]
    refine sumBy_pos_of_lb _ _ 1 hne (by norm_num) ?_
    intro c hc
    exact_mod_cast hprs c hc
  rw [applyPercentages, if_neg hlen0, if_pos htot, fallbackStage, if_pos hcond, if_pos htp,
    map_pct_driftFix]
  congr 1
  rw [List.map_map]
  have hfn : ((fun c : Contributor => c.doraPercentage) ∘
      fallbackPct (sumBy (fun c => (c.prs : ℚ)) (pctStage arr)))
      = fun c : Contributor =>
          ((jsRound ((c.prs : ℚ) / sumBy (fun x => (x.prs : ℚ)) arr * 100) : ℤ) : ℚ) := by
    funext c
    simp only [Function.comp_apply, fallbackPct, pctStage_sum_prs]
  rw [hfn]
  have hmap := map_pctStage arr
    (fun c => ((jsRound ((c.prs : ℚ) / sumBy (fun x => (x.prs : ℚ)) arr * 100) : ℤ) : ℚ))
    (fun c => by
      have h := (setWeighted_proj c).2.1
      simp only [h])
    (fun _ _ => rfl)
  rw [hmap]
  unfold specFallbackPcts
  refine map_congr_mem _ _ _ fun c _ => ?_
  have harg : (c.prs : ℚ) / sumBy (fun x => (x.prs : ℚ)) arr * 100
      = 100 * (c.prs : ℚ) / sumBy (fun x => (x.prs : ℚ)) arr := by
    ring
  rw [harg]

/-- Witness for C9: two contributors with identical stats (1 PR each) tie at
50% after the weighted pass; the theorem applies and gives the PR-share
percentages with drift correction. -/
theorem tie_fallback_then_drift_witness :
    (applyPercentages [cOnePR "A" "a", cOnePR "B" "b"]).map (fun c => c.doraPercentage)
      = specDrift (specFallbackPcts [cOnePR "A" "a", cOnePR "B" "b"]) :=
  tie_fallback_then_drift [cOnePR "A" "a", cOnePR "B" "b"]
    (by
      intro c hc
      rcases List.mem_cons.1 hc with rfl | hc
      · decide
      · rcases List.mem_singleton.1 hc with rfl
        decide)
    (by
      rw [pctStage_pair]
      intro x hx
      rcases List.mem_cons.1 hx with rfl | hx
      · rfl
      · rcases List.mem_singleton.1 hx with rfl
        rfl)
    (by norm_num)

end ContribAgg
